import Mathlib

/-!
# Verification of the Squad-Combat-Initiative group engine

A shallow embedding, in Lean 4, of the group-initiative aggregation engine of the
`GnollStack/Squad-Combat-Initiative` module, translated from the JavaScript sources:

* `src/scripts/shared.js`   — numeric utilities (`calculateAverageInitiative`), `CONSTANTS`;
* `src/scripts/class-objects.js` — `GroupManager` (`getGroups`, `rollGroupAndApplyInitiative`,
  `finalizeGroupInitiative`, `_applyGroupOrder`, `deleteGroup`) and the context-menu
  `setInitiativeOption`;
* `src/scripts/main.js`     — the `updateCombatant` hook (guard layer);
* `src/unnamed/part_001`    — the `rollAll`/`rollNPC` wrapper (`wrapperCallback`);
* `src/scripts/morale.js`   — `MoraleManager` (`getLivingMembers`, `shouldAutoPrompt`).

JavaScript numbers are modelled as exact rationals (`ℚ`); `null`/`undefined` values of
nullable fields are modelled with `Option`.  `Array.prototype.sort` (required stable by
ECMAScript for a consistent comparator) is modelled by `List.insertionSort`, which is a
stable sort, with the comparator translated to its "precedes or ties" relation: any stable
sort with the same comparator produces the same output, so this is the unique faithful model.
The host persistence layer (`updateEmbeddedDocuments`, `setFlag`) is modelled as a pure state
transformation on a `Combat` record; a Boolean `writeOk` parameter injects persistence
failures where a claim is about the failure path.
-/

/- ------------------------------------------------------------------ -/
/- Numeric utilities (shared.js)                                      -/
/- ------------------------------------------------------------------ -/

/-- JavaScript `Math.round`: round to nearest, halves toward `+∞`
(`Math.round(14.5) = 15`, `Math.round(-14.5) = -14`). -/
def jsRound (q : ℚ) : ℚ := (⌊q + 1/2⌋ : ℤ)

/-- `calculateAverageInitiative` (shared.js, lines 482-486):
`null` for an empty list, otherwise `Math.round(sum / length)`. -/
def calculateAverageInitiative (initiatives : List ℚ) : Option ℚ :=
  if initiatives.length = 0 then none
  else some (jsRound (initiatives.sum / initiatives.length))

/-- JavaScript `+x.toFixed(2)`: round to two decimal places.  Per the ECMAScript
specification of `toFixed`, the scaled integer nearest to `100 * x` is chosen, the
larger one on a tie — that is, `⌊100 x + 1/2⌋`. -/
def toFixed2 (q : ℚ) : ℚ := jsRound (q * 100) / 100

/-- `CONSTANTS` (shared.js, lines 43-50).  The object also carries UI timing values,
irrelevant here.  `GROUP_RANK_OFFSET` and `BULK_ROLL_DELAY_MS` are *referenced* by
`class-objects.js` / `part_001` but are absent from this `CONSTANTS` object; see
`rankOffset` below. -/
def STAGGER_INCREMENT : ℚ := 1/100

def SORT_BASE_OFFSET : ℚ := -1000

def SORT_INCREMENT : ℚ := 100

/-- The `"ungrouped"` sentinel (class-objects.js, line 20). -/
def UNGROUPED : String := "ungrouped"

/- ------------------------------------------------------------------ -/
/- Data model                                                         -/
/- ------------------------------------------------------------------ -/

/-- The fields of a host `Combatant` document that the engine reads or writes.
`groupId` is the `flags.squad-combat-initiative.groupId` flag (`none` = flag unset),
`dexValue` / `dexMod` are `actor.system.abilities.dex.{value,mod}` (`none` = missing
actor data), `hp` is `actor.system.attributes.hp.value`. -/
structure Combatant where
  id : String
  groupId : Option String
  initiative : Option ℚ
  dexValue : Option ℚ
  dexMod : Option ℚ
  hp : Option ℚ
  sort : Option ℚ
deriving DecidableEq, Repr

/-- The per-group metadata record stored at `flags.squad-combat-initiative.groups.<gid>`
(the fields relevant to the claims under study). -/
structure GroupData where
  name : Option String
  initiative : Option ℚ
  startingSize : Option ℚ
deriving DecidableEq, Repr

/-- The slice of a `Combat` document the engine touches: its combatants, the persisted
group-metadata map (`flags...groups`, as insertion-ordered key/value entries, matching
`Object.entries`), and the set of group ids whose `flags...skipFinalize.<gid>` flag is set.
`combat.turns` enumerates the same combatant documents, so it is identified with
`combatants` here. -/
structure Combat where
  combatants : List Combatant
  groups : List (String × GroupData)
  skipFinalize : List String
deriving DecidableEq, Repr

/-- Association lookup on the group-metadata entries (`combat.getFlag(MODULE_ID,
`groups.<gid>`)`). -/
def lookupGroup (groups : List (String × GroupData)) (gid : String) : Option GroupData :=
  match groups with
  | [] => none
  | g :: rest => if g.1 = gid then some g.2 else lookupGroup rest gid

/-- `combat.combatants.filter((c) => c.getFlag(MODULE_ID, "groupId") === groupId)` —
used identically in `finalizeGroupInitiative`, `rollGroupAndApplyInitiative`,
`setInitiativeOption` and `deleteGroup`. -/
def membersOf (c : Combat) (gid : String) : List Combatant :=
  c.combatants.filter (fun cb => cb.groupId = some gid)

/- ------------------------------------------------------------------ -/
/- Lexicographic comparator combinator                                -/
/- ------------------------------------------------------------------ -/

/-- One level of a JavaScript subtraction comparator chain: `(a, b) => b.key - a.key || rest`
sorts descending by `key`, falling through to `rest` on a tie.  `qLex x y rest` states that
an element with key `x` precedes-or-ties one with key `y`. -/
def qLex (x y : ℚ) (rest : Prop) : Prop := y < x ∨ (y = x ∧ rest)

instance {x y : ℚ} {rest : Prop} [Decidable rest] : Decidable (qLex x y rest) := by
  unfold qLex; exact inferInstance

theorem qLex_trans {x y z : ℚ} {p q r : Prop} (h : p → q → r) :
    qLex x y p → qLex y z q → qLex x z r := by
  rintro (hxy | ⟨hxy, hp⟩) (hyz | ⟨hyz, hq⟩)
  · exact Or.inl (hyz.trans hxy)
  · exact Or.inl (hyz ▸ hxy)
  · exact Or.inl (hxy ▸ hyz)
  · exact Or.inr ⟨hyz.trans hxy, h hp hq⟩

theorem qLex_total {x y : ℚ} {p q : Prop} (h : p ∨ q) :
    qLex x y p ∨ qLex y x q := by
  rcases lt_trichotomy y x with hlt | heq | hgt
  · exact Or.inl (Or.inl hlt)
  · rcases h with hp | hq
    · exact Or.inl (Or.inr ⟨heq, hp⟩)
    · exact Or.inr (Or.inr ⟨heq.symm, hq⟩)
  · exact Or.inr (Or.inl hgt)

theorem qLex_key_le {x y : ℚ} {p : Prop} (h : qLex x y p) : y ≤ x := by
  rcases h with h | ⟨h, _⟩
  · exact h.le
  · exact h.le

/- ------------------------------------------------------------------ -/
/- Member sorting (_applyGroupOrder, line 234)                        -/
/- ------------------------------------------------------------------ -/

/-- The shaped per-member record built by the callers of `_applyGroupOrder`:
`{ combatant, name, init, dex }`, with the combatant reference reduced to its id. -/
structure Entry where
  cid : String
  init : ℚ
  dex : ℚ
deriving DecidableEq, Repr

/-- `list.sort((a, b) => b.init - a.init || b.dex - a.dex)`: `a` precedes-or-ties `b` iff
the comparator is `≤ 0` — descending initiative, ties descending `dex`, remaining ties
left to the sort's stability. -/
def entryLE (a b : Entry) : Prop := qLex a.init b.init (b.dex ≤ a.dex)

instance : DecidableRel entryLE := fun a b => by
  unfold entryLE; exact inferInstance

instance : IsTrans Entry entryLE :=
  ⟨fun _ _ _ hab hbc => qLex_trans (fun h h' => le_trans h' h) hab hbc⟩

instance : IsTotal Entry entryLE :=
  ⟨fun a b => qLex_total (le_total b.dex a.dex)⟩

/-- The stable descending sort of the shaped member list. -/
def sortMembers (l : List Entry) : List Entry := l.insertionSort entryLE

/- ------------------------------------------------------------------ -/
/- Group ranking (_applyGroupOrder, lines 244-274)                    -/
/- ------------------------------------------------------------------ -/

/-- One element of `groupsWithInit`: `{ id, initiative, totalInit, avgDex }`. -/
structure RankEntry where
  id : String
  initiative : ℚ
  totalInit : ℚ
  avgDex : ℚ
deriving DecidableEq, Repr

/-- The four-level group comparator of `_applyGroupOrder` (lines 262-271): descending
aggregate initiative, then descending total raw initiative, then descending average DEX
modifier, then ascending group id (`a.id.localeCompare(b.id)`). -/
def rankLE (a b : RankEntry) : Prop :=
  qLex a.initiative b.initiative
    (qLex a.totalInit b.totalInit
      (qLex a.avgDex b.avgDex (a.id ≤ b.id)))

instance : DecidableRel rankLE := fun a b => by
  unfold rankLE; exact inferInstance

instance : IsTrans RankEntry rankLE :=
  ⟨fun _ _ _ hab hbc =>
    qLex_trans (fun h h' => qLex_trans (fun h h' =>
      qLex_trans (fun h h' => le_trans h h') h h') h h') hab hbc⟩

instance : IsTotal RankEntry rankLE :=
  ⟨fun a b =>
    qLex_total (qLex_total (qLex_total (le_total a.id b.id)))⟩

/-- `groupsWithInit` (lines 245-271): every persisted group entry with a known aggregate —
its own stored `initiative`, or for the group currently being finalized the freshly
computed average — decorated with the tie-break data and sorted by `rankLE`. -/
def groupsWithInit (c : Combat) (groupId : String) (avgInit : ℚ) : List RankEntry :=
  (c.groups.filterMap (fun g =>
    let init? : Option ℚ :=
      match g.2.initiative with
      | some v => some v
      | none => if g.1 = groupId then some avgInit else none
    match init? with
    | none => none
    | some init =>
      let members := membersOf c g.1
      let totalInit := (members.map (fun cb => cb.initiative.getD 0)).sum
      let avgDex :=
        if 0 < members.length
        then (members.map (fun cb => cb.dexMod.getD 0)).sum / members.length
        else 0
      some ⟨g.1, init, totalInit, avgDex⟩)).insertionSort rankLE

/-- Modelled from the spec: `CONSTANTS.GROUP_RANK_OFFSET` is referenced by
`_applyGroupOrder` (class-objects.js, line 274) but missing from the `CONSTANTS` object in
`src/scripts/shared.js`; the spec only pins it down as "a strictly-increasing per-rank
constant" that is `0` for rank 0.  The embedding therefore takes the constant `K` as a
parameter.  `rankOffset K r` is `groupRank > 0 ? groupRank * GROUP_RANK_OFFSET : 0`
(a group absent from the ranking has JS rank `-1`, handled at the call site). -/
def rankOffset (K : ℚ) (r : ℕ) : ℚ := if 0 < r then (r : ℚ) * K else 0

/-- `groupRank`/`groupOffset` (lines 273-274): the group's index in the sorted ranking,
`-1` (modelled as `none`) when absent, mapped to its additive offset. -/
def groupOffsetOf (c : Combat) (groupId : String) (avgInit : ℚ) (K : ℚ) : ℚ :=
  match (groupsWithInit c groupId avgInit).findIdx? (fun e => e.id = groupId) with
  | some r => rankOffset K r
  | none => 0

/- ------------------------------------------------------------------ -/
/- _applyGroupOrder (lines 222-316)                                   -/
/- ------------------------------------------------------------------ -/

/-- One element of the `updates` batch (line 286): combatant id, new `sort`, new
encoded `initiative`. -/
structure MemberUpdate where
  id : String
  sort : ℚ
  initiative : ℚ
deriving DecidableEq, Repr

/-- The minimum of the existing `sort` values, `Math.min(...combat.turns.map((t) =>
t.sort ?? 0))`.  (`Math.min()` of an empty spread is `Infinity`; the call sites always
have at least one combatant, so the empty case is unreachable and modelled as `0`.) -/
def minSorts : List ℚ → ℚ
  | [] => 0
  | x :: xs => xs.foldl min x

/-- `baseSort` (lines 236-238).  For a finite minimum `m`, `m || 0` equals `m`
(`0 || 0 === 0`), so the `|| 0` guard is the identity here. -/
def baseSortOf (c : Combat) : ℚ :=
  minSorts (c.combatants.map (fun t => t.sort.getD 0)) + SORT_BASE_OFFSET

/-- The `updates` array (lines 286-290): the sorted member list mapped with its index to
`{ _id, sort: baseSort + idx * SORT_INCREMENT, initiative: +(avgInit + groupOffset +
(arr.length - idx) * STAGGER_INCREMENT).toFixed(2) }`.  Written with an explicit index
accumulator in place of `Array.prototype.map`'s index argument. -/
def buildUpdates (baseSort avgInit groupOffset : ℚ) (n : ℕ) :
    ℕ → List Entry → List MemberUpdate
  | _, [] => []
  | idx, e :: rest =>
    ⟨e.cid, baseSort + idx * SORT_INCREMENT,
      toFixed2 (avgInit + groupOffset + ((n : ℚ) - idx) * STAGGER_INCREMENT)⟩
      :: buildUpdates baseSort avgInit groupOffset n (idx + 1) rest

/-- The pure computation of `_applyGroupOrder` (lines 234-290): sort the shaped list,
average the initiatives, rank the groups, and produce the member update batch together
with the new aggregate.  `none` only for an empty list (where the JS code would compute
`NaN`; every caller guarantees non-emptiness). -/
def applyGroupOrderUpdates (c : Combat) (groupId : String) (list : List Entry) (K : ℚ) :
    Option (List MemberUpdate × ℚ) :=
  let sorted := sortMembers list
  match calculateAverageInitiative (sorted.map (fun e => e.init)) with
  | none => none
  | some avgInit =>
    let groupOffset := groupOffsetOf c groupId avgInit K
    some (buildUpdates (baseSortOf c) avgInit groupOffset sorted.length 0 sorted, avgInit)

/-- `combat.updateEmbeddedDocuments("Combatant", updates)` applied to one combatant:
the update with matching `_id`, if any, overwrites `initiative` and `sort`. -/
def applyUpdate (cb : Combatant) (us : List MemberUpdate) : Combatant :=
  match us.find? (fun u => u.id = cb.id) with
  | some u => { cb with initiative := some u.initiative, sort := some u.sort }
  | none => cb

/-- `combat.setFlag(MODULE_ID, `groups.<gid>.initiative`, v)`: update the entry in place,
or create it when the group key does not exist yet. -/
def setGroupFlagInitiative (c : Combat) (gid : String) (v : ℚ) : Combat :=
  if (lookupGroup c.groups gid).isSome then
    { c with groups := c.groups.map (fun g =>
        if g.1 = gid then (g.1, { g.2 with initiative := some v }) else g) }
  else
    { c with groups := c.groups ++ [(gid, ⟨none, some v, none⟩)] }

/-- `combat.setFlag(MODULE_ID, `skipFinalize.<gid>`, true)`. -/
def setSkipFlag (c : Combat) (gid : String) : Combat :=
  if gid ∈ c.skipFinalize then c else { c with skipFinalize := gid :: c.skipFinalize }

/-- `combat.unsetFlag(MODULE_ID, `skipFinalize.<gid>`)`. -/
def unsetSkipFlag (c : Combat) (gid : String) : Combat :=
  { c with skipFinalize := c.skipFinalize.filter (fun g => g ≠ gid) }

/-- The stateful tail of `_applyGroupOrder` (lines 299-316): `Promise.all` of the member
batch write and the aggregate flag write (modelled as one atomic step, `writeOk` injecting
its failure), then `unsetFlag(skipFinalize)` when `clearSkipFlag` was requested.  On a
write failure the `catch` block clears the skip flag (when requested) and *re-throws*
(`throw err`), modelled as `Except.error`. -/
def applyGroupOrderRun (c : Combat) (groupId : String) (list : List Entry) (K : ℚ)
    (writeOk clearSkipFlag : Bool) : Combat × Except Unit Unit :=
  match applyGroupOrderUpdates c groupId list K with
  | none => (c, Except.ok ())
  | some (us, avgInit) =>
    if writeOk then
      let c1 := setGroupFlagInitiative
        { c with combatants := c.combatants.map (fun cb => applyUpdate cb us) } groupId avgInit
      (if clearSkipFlag then unsetSkipFlag c1 groupId else c1, Except.ok ())
    else
      (if clearSkipFlag then unsetSkipFlag c groupId else c, Except.error ())

/- ------------------------------------------------------------------ -/
/- finalizeGroupInitiative (lines 173-216)                            -/
/- ------------------------------------------------------------------ -/

/-- The `shaped` list of `finalizeGroupInitiative` (lines 202-207): one entry per member,
with `init: c.initiative` and `dex: c.actor?.system?.abilities?.dex?.value ?? 10` (the
DEX *score*). -/
def shapedMembers (c : Combat) (gid : String) : List Entry :=
  (membersOf c gid).map (fun cb => ⟨cb.id, cb.initiative.getD 0, cb.dexValue.getD 10⟩)

/-- The guarded update computation of `finalizeGroupInitiative`: `none` (silent return,
no writes) when the group has no members or some member's initiative is not a finite
number; otherwise the `_applyGroupOrder` batch for the shaped member list. -/
def finalizeCompute (c : Combat) (gid : String) (K : ℚ) : Option (List MemberUpdate × ℚ) :=
  let members := membersOf c gid
  if members.length = 0 then none
  else if members.all (fun cb => cb.initiative.isSome) then
    applyGroupOrderUpdates c gid (shapedMembers c gid) K
  else none

/-- `finalizeGroupInitiative` as a state transformation.  Its `try`/`catch` logs every
error and never re-throws, so the result is always `Except.ok`; when the preconditions
fail, or the write fails, the combat state is left untouched. -/
def finalizeRun (c : Combat) (gid : String) (K : ℚ) (writeOk : Bool) :
    Combat × Except Unit Unit :=
  let members := membersOf c gid
  if members.length = 0 then (c, Except.ok ())
  else if members.all (fun cb => cb.initiative.isSome) then
    ((applyGroupOrderRun c gid (shapedMembers c gid) K writeOk false).1, Except.ok ())
  else (c, Except.ok ())

/- ------------------------------------------------------------------ -/
/- rollGroupAndApplyInitiative (lines 81-164)                         -/
/- ------------------------------------------------------------------ -/

/-- The `rolledSummary` built by the roll loop (lines 114-136), as shaped entries: one
evaluated total per not-yet-rolled member (`toRoll`), with `dex` the DEX *modifier*
(`c.actor?.system?.abilities?.dex?.mod ?? 0`; contrast the finalize path, which uses the
DEX score). -/
def rolledEntries (c : Combat) (gid : String) (rolls : List ℚ) : List Entry :=
  ((((membersOf c gid).filter (fun cb => cb.initiative = none)).zip rolls)).map
    (fun p => ⟨p.1.id, p.2, p.1.dexMod.getD 0⟩)

/-- The combat state after the skip flag is set (line 107) and the raw totals are
written to the rolled members (line 143). -/
def rollGroupMid (c : Combat) (gid : String) (rolls : List ℚ) : Combat :=
  let c1 := setSkipFlag c gid
  { c1 with combatants := c1.combatants.map (fun cb =>
      match (rolledEntries c gid rolls).find? (fun e => e.cid = cb.id) with
      | some e => { cb with initiative := some e.init }
      | none => cb) }

/-- `rollGroupAndApplyInitiative` as a state transformation.  The injected dice service
is modelled by `rolls`: the evaluated totals (die + DEX modifier, `roll.total`) assigned
positionally to the members that still lack an initiative (`toRoll`).  After setting the
per-group skip flag and writing the raw totals, `_applyGroupOrder` is invoked with
`clearSkipFlag: true`; its `catch` block (lines 154-163) notifies the user, attempts to
clear the skip flag again, and returns normally — the error is *not* re-thrown, so the
public operation always yields `Except.ok`. -/
def rollGroupRun (c : Combat) (gid : String) (rolls : List ℚ) (K : ℚ) (writeOk : Bool) :
    Combat × Except Unit Unit :=
  if ((membersOf c gid).filter (fun cb => cb.initiative = none)).length = 0 then
    (c, Except.ok ())
  else
    match applyGroupOrderRun (rollGroupMid c gid rolls) gid (rolledEntries c gid rolls)
        K writeOk true with
    | (c3, Except.ok ()) => (c3, Except.ok ())
    | (c3, Except.error ()) => (unsetSkipFlag c3 gid, Except.ok ())

/- ------------------------------------------------------------------ -/
/- setInitiativeOption (class-objects.js, lines 615-665)              -/
/- ------------------------------------------------------------------ -/

/-- The update computation of the "Set Group Initiative" action: for a non-empty member
list, `oldAvg` is the plain mean of `initiative ?? 0` (the `|| 0` guard is the identity
for a finite quotient), and every member is rebased to `base + ((initiative ?? 0) -
oldAvg)`; `base` itself is persisted as the group aggregate, unrounded.  `none` when the
group has no members (early return, line 643). -/
def setInitiativeUpdates (c : Combat) (gid : String) (base : ℚ) :
    Option (List (String × ℚ) × ℚ) :=
  let members := membersOf c gid
  if members.length = 0 then none
  else
    let oldAvg := (members.map (fun cb => cb.initiative.getD 0)).sum / members.length
    some (members.map (fun cb => (cb.id, base + (cb.initiative.getD 0 - oldAvg))), base)

/- ------------------------------------------------------------------ -/
/- MoraleManager (morale.js)                                          -/
/- ------------------------------------------------------------------ -/

/-- `getLivingMembers` (morale.js, lines 39-45): members of the group whose hit points
are non-null and strictly positive. -/
def getLivingMembers (c : Combat) (gid : String) : List Combatant :=
  c.combatants.filter (fun cb =>
    decide (cb.groupId = some gid) && match cb.hp with | some h => decide (0 < h) | none => false)

/-- `shouldAutoPrompt` (morale.js, lines 89-101).  `threshold` is the
`moraleAutoPromptThreshold` setting and `promptedGroups` the in-memory `_promptedGroups`
set.  Note `!startingSize || startingSize <= 0`: a missing *and* a zero (falsy) or
negative recorded size short-circuit to `false`. -/
def shouldAutoPrompt (c : Combat) (gid : String) (threshold : ℚ)
    (promptedGroups : List String) : Bool :=
  if threshold ≤ 0 then false
  else if gid ∈ promptedGroups then false
  else
    match (lookupGroup c.groups gid).bind (fun g => g.startingSize) with
    | none => false
    | some ss =>
      if ss ≤ 0 then false
      else decide ((getLivingMembers c gid).length ≤ ⌊ss * (threshold / 100)⌋)

/-- The auto-prompt predicate exactly as the claim's sentence states it, for comparison
with the source translation `shouldAutoPrompt`: false when the threshold is 0, false when
already prompted, false when *no* starting size is recorded; otherwise true iff
`livingMemberCount ≤ floor(startingSize × threshold / 100)`. -/
def shouldAutoPromptClaim (c : Combat) (gid : String) (threshold : ℚ)
    (promptedGroups : List String) : Bool :=
  if threshold = 0 then false
  else if gid ∈ promptedGroups then false
  else
    match (lookupGroup c.groups gid).bind (fun g => g.startingSize) with
    | none => false
    | some ss => decide ((getLivingMembers c gid).length ≤ ⌊ss * threshold / 100⌋)

/- ------------------------------------------------------------------ -/
/- deleteGroup (class-objects.js, lines 398-452)                      -/
/- ------------------------------------------------------------------ -/

/-- The success path of `deleteGroup` (lines 427-447): remove the group's metadata entry
(`flags...groups.-=<gid>`) and unset every member's `groupId` flag
(`flags...-=groupId`), via `updateEmbeddedDocuments` — combatant documents are updated,
never deleted. -/
def deleteGroupRun (c : Combat) (gid : String) : Combat :=
  { c with
    groups := c.groups.filter (fun g => g.1 ≠ gid),
    combatants := c.combatants.map (fun cb =>
      if cb.groupId = some gid then { cb with groupId := none } else cb) }

/-- How a combatant's group membership is resolved throughout the module
(`c.getFlag(MODULE_ID, "groupId") ?? UNGROUPED`, class-objects.js line 54). -/
def resolvedGroupId (cb : Combatant) : String := cb.groupId.getD UNGROUPED

/- ------------------------------------------------------------------ -/
/- Guard layer and bulk-roll shim (main.js; unnamed/part_001)         -/
/- ------------------------------------------------------------------ -/

/-- The observable guard state: `GroupManager._mutex`, `GroupManager._bulkRollInProgress`,
and the chronological log of `finalizeGroupInitiative` invocations (by group id). -/
structure GuardState where
  mutex : Bool
  bulkRollInProgress : Bool
  finalizeCalls : List String
deriving DecidableEq, Repr

/-- An `updateCombatant` notification: the combatant's id, its `groupId` flag, and
whether the change set contains `initiative`. -/
structure Notification where
  combatantId : String
  groupId : Option String
  initiativeChanged : Bool
deriving DecidableEq, Repr

/-- The `updateCombatant` hook of `src/scripts/main.js` (lines 116-166) as a transition on
the guard state: drop the notification unless initiative changed; drop while the mutex or
the bulk-roll flag is held, while the combatant is in `skipFinalizeSet` (`skipSet`), when
the combatant is ungrouped (a missing or empty or `"ungrouped"` id), or while the group's
persisted skip flag is set; otherwise invoke `finalizeGroupInitiative`. -/
def updateCombatantHook (c : Combat) (skipSet : List String) (s : GuardState)
    (n : Notification) : GuardState :=
  if ¬ n.initiativeChanged then s
  else if s.mutex then s
  else if s.bulkRollInProgress then s
  else if n.combatantId ∈ skipSet then s
  else
    match n.groupId with
    | none => s
    | some gid =>
      if gid = "" ∨ gid = UNGROUPED then s
      else if gid ∈ c.skipFinalize then s
      else { s with finalizeCalls := s.finalizeCalls ++ [gid] }

/-- `if (id ∈ map) skip else append` — the insertion-ordered key set of a JS `Map`. -/
def addKey (acc : List String) (id : String) : List String :=
  if id ∈ acc then acc else acc ++ [id]

/-- The key set of `GroupManager.getGroups(combatants, combat)` (class-objects.js,
lines 49-72): one key per distinct `groupId ?? UNGROUPED` flag value in combatant order,
then every stored group id not yet present and different from the ungrouped sentinel. -/
def getGroupsKeys (combatants : List Combatant) (stored : List (String × GroupData)) :
    List String :=
  let fromCombatants := combatants.foldl (fun acc cb => addKey acc (resolvedGroupId cb)) []
  stored.foldl (fun acc g => if g.1 = UNGROUPED then acc else addKey acc g.1) fromCombatants

/-- `wrapperCallback` (src/unnamed/part_001, lines 169-225) as a transition on the guard
state: set `_bulkRollInProgress`; run the wrapped bulk roll, during which the delivered
member notifications (`notifs`) pass through the `updateCombatant` hook; when the wrapped
operation completes (`wrappedOk`), after the settle delay
(`CONSTANTS.BULK_ROLL_DELAY_MS`, absent from shared.js, hence `setTimeout(_, undefined)`
— a zero-delay tick), call `finalizeGroupInitiative` once per non-ungrouped key of the
group index; the `catch` swallows a wrapped-operation failure; the `finally` clears
`_bulkRollInProgress` in every case. -/
def wrapperRun (c : Combat) (skipSet : List String) (notifs : List Notification)
    (wrappedOk : Bool) (s0 : GuardState) : GuardState :=
  let s1 := { s0 with bulkRollInProgress := true }
  let s2 := notifs.foldl (updateCombatantHook c skipSet) s1
  let s3 :=
    if wrappedOk then
      ((getGroupsKeys c.combatants c.groups).filter (fun g => g ≠ UNGROUPED)).foldl
        (fun s gid => { s with finalizeCalls := s.finalizeCalls ++ [gid] }) s2
    else s2
  { s3 with bulkRollInProgress := false }

/- ------------------------------------------------------------------ -/
/- General lemmas about the numeric primitives                        -/
/- ------------------------------------------------------------------ -/

theorem jsRound_isInt (q : ℚ) : ∃ z : ℤ, jsRound q = (z : ℚ) :=
  ⟨⌊q + 1/2⌋, rfl⟩

theorem jsRound_le (q : ℚ) : jsRound q ≤ q + 1/2 := by
  unfold jsRound; exact Int.floor_le _

theorem lt_jsRound (q : ℚ) : q - 1/2 < jsRound q := by
  unfold jsRound
  have h := Int.lt_floor_add_one (q + 1/2)
  linarith

/-- Adding an integer shifts `jsRound` by that integer. -/
theorem jsRound_add_int (q : ℚ) (z : ℤ) : jsRound (q + z) = jsRound q + z := by
  unfold jsRound
  rw [show q + (z : ℚ) + 1/2 = q + 1/2 + (z : ℚ) by ring, Int.floor_add_int]
  push_cast
  ring

/-- An integer plus a remainder in `[0, 1/2)` rounds down to the integer. -/
theorem jsRound_int_add_small (z : ℤ) (d : ℚ) (h0 : 0 ≤ d) (h1 : d < 1/2) :
    jsRound ((z : ℚ) + d) = (z : ℚ) := by
  unfold jsRound
  have : ⌊(z : ℚ) + d + 1/2⌋ = z := by
    rw [Int.floor_eq_iff]
    constructor
    · linarith
    · linarith
  rw [this]

/-- `toFixed2` is the identity on a rational with at most two decimal places. -/
theorem jsRound_intCast (z : ℤ) : jsRound (z : ℚ) = (z : ℚ) := by
  simpa using jsRound_int_add_small z 0 le_rfl (by norm_num)

theorem toFixed2_eq_self {q : ℚ} (h : ∃ z : ℤ, q * 100 = (z : ℚ)) : toFixed2 q = q := by
  obtain ⟨z, hz⟩ := h
  unfold toFixed2
  rw [hz, jsRound_intCast]
  field_simp at hz ⊢
  linarith

/-- `toFixed2` commutes with shifts by integer multiples of `1/100`. -/
theorem toFixed2_add_div100 (x : ℚ) (k : ℤ) :
    toFixed2 (x + (k : ℚ) / 100) = toFixed2 x + (k : ℚ) / 100 := by
  unfold toFixed2
  rw [show (x + (k : ℚ) / 100) * 100 = x * 100 + (k : ℚ) by ring, jsRound_add_int]
  ring

/- ------------------------------------------------------------------ -/
/- C2 — calculateAverageInitiative rounding semantics                 -/
/- ------------------------------------------------------------------ -/

/-- **C2, counterexample.**  The claim asserts round-half-away-from-zero semantics, under
which a mean of `-14.5` (members `[-15, -14]`) would yield `-15`; the code's
`Math.round` rounds halves toward `+∞` and returns `-14`. -/
theorem C2_counterexample :
    calculateAverageInitiative [-15, -14] = some (-14) ∧
    calculateAverageInitiative [-15, -14] ≠ some (-15) := by
  constructor
  · norm_num [calculateAverageInitiative, jsRound]
  · norm_num [calculateAverageInitiative, jsRound]

/-- **C2, amended.**  For every non-empty list, `calculateAverageInitiative` returns the
arithmetic mean rounded to the nearest integer with halves rounded toward `+∞` (JavaScript
`Math.round`): the result is an integer within `(mean - 1/2, mean + 1/2]`; in particular
`[18, 14, 10] ↦ 14`, `[15, 14] ↦ 15` (mean `14.5`), `[14.4] ↦ 14` — but `[-15, -14]`
(mean `-14.5`) yields `-14`, not `-15`. -/
theorem C2_theorem (l : List ℚ) (h : l ≠ []) :
    (∃ r : ℚ, calculateAverageInitiative l = some r ∧ (∃ z : ℤ, r = (z : ℚ)) ∧
        l.sum / l.length - 1/2 < r ∧ r ≤ l.sum / l.length + 1/2) ∧
    calculateAverageInitiative [18, 14, 10] = some 14 ∧
    calculateAverageInitiative [15, 14] = some 15 ∧
    calculateAverageInitiative [144/10] = some 14 ∧
    calculateAverageInitiative [-15, -14] = some (-14) := by
  refine ⟨?_, ?_, ?_, ?_, ?_⟩
  · have hlen : l.length ≠ 0 := fun hc => h (List.length_eq_zero.mp hc)
    refine ⟨jsRound (l.sum / l.length), ?_, jsRound_isInt _, lt_jsRound _, jsRound_le _⟩
    unfold calculateAverageInitiative
    rw [if_neg hlen]
  · norm_num [calculateAverageInitiative, jsRound]
  · norm_num [calculateAverageInitiative, jsRound]
  · norm_num [calculateAverageInitiative, jsRound]
  · norm_num [calculateAverageInitiative, jsRound]

/-- **C2, witness** at `l = [15, 14]`. -/
theorem C2_witness :
    [(15 : ℚ), 14] ≠ [] ∧ calculateAverageInitiative [15, 14] = some 15 :=
  ⟨by simp, (C2_theorem [15, 14] (by simp)).2.2.1⟩

/- ------------------------------------------------------------------ -/
/- C5 — finalize precondition failure is a silent no-op               -/
/- ------------------------------------------------------------------ -/

/-- **C5, confirmed.**  When the group has no members, or some member's initiative is not
a non-null finite number, `finalizeGroupInitiative` computes no update batch and leaves
the combat state untouched, returning normally (its `try`/`catch` never re-throws). -/
theorem C5_theorem (c : Combat) (gid : String) (K : ℚ) (writeOk : Bool)
    (h : membersOf c gid = [] ∨ ∃ cb ∈ membersOf c gid, cb.initiative = none) :
    finalizeCompute c gid K = none ∧
    finalizeRun c gid K writeOk = (c, Except.ok ()) := by
  rcases h with hempty | ⟨cb, hmem, hnone⟩
  · constructor
    · unfold finalizeCompute
      rw [hempty]
      simp
    · unfold finalizeRun
      rw [hempty]
      simp
  · have hne : (membersOf c gid).length ≠ 0 := by
      intro hc
      rw [List.length_eq_zero.mp hc] at hmem
      simp at hmem
    have hall : (membersOf c gid).all (fun cb => cb.initiative.isSome) = false := by
      rw [List.all_eq_false]
      exact ⟨cb, hmem, by simp [hnone]⟩
    constructor
    · unfold finalizeCompute
      rw [if_neg hne, hall]
      simp
    · unfold finalizeRun
      rw [if_neg hne, hall]
      simp

def cexC5 : Combat :=
  ⟨[⟨"m1", some "g", none, none, none, none, none⟩,
    ⟨"m2", some "g", none, none, none, none, none⟩],
   [("g", ⟨some "G", none, none⟩)], []⟩

/-- **C5, witness**: a two-member group where no member has rolled yet. -/
theorem C5_witness :
    (membersOf cexC5 "g" = [] ∨ ∃ cb ∈ membersOf cexC5 "g", cb.initiative = none) ∧
    finalizeRun cexC5 "g" 0 true = (cexC5, Except.ok ()) :=
  ⟨by decide, (C5_theorem cexC5 "g" 0 true (by decide)).2⟩

/- ------------------------------------------------------------------ -/
/- C7 — setGroupInitiative rebases by a constant delta                -/
/- ------------------------------------------------------------------ -/

theorem sum_map_rebase (base avg : ℚ) (vals : List ℚ) :
    (vals.map (fun v => base + (v - avg))).sum
      = vals.length * base + vals.sum - vals.length * avg := by
  induction vals with
  | nil => simp
  | cons v rest ih =>
    simp only [List.map_cons, List.sum_cons, List.length_cons, ih]
    push_cast
    ring

/-- **C7, confirmed.**  For a non-empty group, the "Set Group Initiative" action rebases
every member by the same delta: memberwise, `newValue − base` equals the member's old
offset from the old average, so relative offsets are preserved exactly; the mean of the
new values is exactly `base`; and `base` itself — not a rounded value — is persisted as
the new group aggregate. -/
theorem C7_theorem (c : Combat) (gid : String) (base : ℚ)
    (h : membersOf c gid ≠ []) :
    ∃ us : List (String × ℚ),
      setInitiativeUpdates c gid base = some (us, base) ∧
      us.map (fun p => p.1) = (membersOf c gid).map (fun cb => cb.id) ∧
      us.map (fun p => p.2 - base)
        = (membersOf c gid).map (fun cb =>
            cb.initiative.getD 0
              - ((membersOf c gid).map (fun cb => cb.initiative.getD 0)).sum
                  / (membersOf c gid).length) ∧
      (us.map (fun p => p.2)).sum / us.length = base := by
  set members := membersOf c gid with hm
  have hlen : members.length ≠ 0 := fun hc => h (List.length_eq_zero.mp hc)
  set avg := (members.map (fun cb => cb.initiative.getD 0)).sum / members.length with havg
  refine ⟨members.map (fun cb => (cb.id, base + (cb.initiative.getD 0 - avg))), ?_, ?_, ?_, ?_⟩
  · unfold setInitiativeUpdates
    rw [if_neg hlen]
  · rw [List.map_map]
    rfl
  · rw [List.map_map]
    refine List.map_congr_left (fun cb _ => ?_)
    show base + (cb.initiative.getD 0 - avg) - base = _
    ring
  · rw [List.map_map]
    have hcomp : (members.map ((fun p : String × ℚ => p.2) ∘
        (fun cb => (cb.id, base + (cb.initiative.getD 0 - avg)))))
        = (members.map (fun cb => cb.initiative.getD 0)).map (fun v => base + (v - avg)) := by
      rw [List.map_map]
      rfl
    rw [hcomp, sum_map_rebase]
    rw [List.length_map, List.length_map]
    have hq : ((members.length : ℚ)) ≠ 0 := by
      exact_mod_cast hlen
    have hsum : (members.length : ℚ) * avg = (members.map (fun cb => cb.initiative.getD 0)).sum := by
      rw [havg]
      field_simp
    rw [hsum]
    field_simp

def cexC7 : Combat :=
  ⟨[⟨"m1", some "g", some 10, none, none, none, none⟩,
    ⟨"m2", some "g", some 14, none, none, none, none⟩],
   [("g", ⟨some "G", none, none⟩)], []⟩

/-- **C7, witness**: members at `10` and `14` (mean `12`), rebased to a new value of
`37/2`; the persisted aggregate is `37/2` itself, unrounded. -/
theorem C7_witness :
    membersOf cexC7 "g" ≠ [] ∧
    ∃ us, setInitiativeUpdates cexC7 "g" (37/2) = some (us, 37/2) :=
  ⟨by simp [membersOf, cexC7], by
    obtain ⟨us, h1, _⟩ := C7_theorem cexC7 "g" (37/2) (by simp [membersOf, cexC7])
    exact ⟨us, h1⟩⟩

/- ------------------------------------------------------------------ -/
/- C9 — deleteGroup unassigns members, never deletes them             -/
/- ------------------------------------------------------------------ -/

theorem lookupGroup_filter_ne (groups : List (String × GroupData)) (gid : String) :
    lookupGroup (groups.filter (fun g => g.1 ≠ gid)) gid = none := by
  induction groups with
  | nil => rfl
  | cons g rest ih =>
    rw [List.filter_cons]
    by_cases hg : g.1 = gid
    · rw [if_neg (by simp [hg])]
      exact ih
    · rw [if_pos (by simp [hg]), lookupGroup, if_neg hg]
      exact ih

/-- **C9, confirmed.**  After the success path of `deleteGroup`: the encounter still
contains exactly the same combatants (by id, in order — none deleted); every former
member still exists and its group membership resolves to the `"ungrouped"` sentinel
(the `groupId` flag was removed, and the module resolves a missing flag with
`?? UNGROUPED`); no combatant is a member of the group anymore; and the group's
metadata entry is gone. -/
theorem C9_theorem (c : Combat) (gid : String) :
    (deleteGroupRun c gid).combatants.map (fun cb => cb.id)
        = c.combatants.map (fun cb => cb.id) ∧
    (∀ cb ∈ membersOf c gid, ∃ cb' ∈ (deleteGroupRun c gid).combatants,
        cb'.id = cb.id ∧ resolvedGroupId cb' = UNGROUPED) ∧
    membersOf (deleteGroupRun c gid) gid = [] ∧
    lookupGroup (deleteGroupRun c gid).groups gid = none := by
  refine ⟨?_, ?_, ?_, ?_⟩
  · show (c.combatants.map _).map _ = _
    rw [List.map_map]
    refine List.map_congr_left (fun cb _ => ?_)
    simp only [Function.comp_apply]
    split <;> rfl
  · intro cb hmem
    rw [membersOf, List.mem_filter] at hmem
    obtain ⟨hin, hflag⟩ := hmem
    refine ⟨{ cb with groupId := none }, ?_, rfl, rfl⟩
    show _ ∈ c.combatants.map _
    rw [List.mem_map]
    exact ⟨cb, hin, by rw [if_pos (by simpa using hflag)]⟩
  · rw [membersOf, List.filter_eq_nil_iff]
    intro a ha
    rw [show (deleteGroupRun c gid).combatants = c.combatants.map
      (fun cb => if cb.groupId = some gid then { cb with groupId := none } else cb) from rfl,
      List.mem_map] at ha
    obtain ⟨cb, _, hcb⟩ := ha
    by_cases hflag : cb.groupId = some gid
    · rw [if_pos hflag] at hcb
      rw [← hcb]
      simp
    · rw [if_neg hflag] at hcb
      rw [← hcb]
      simpa using hflag
  · exact lookupGroup_filter_ne c.groups gid

def cexC9 : Combat :=
  ⟨[⟨"m1", some "g", none, none, none, none, none⟩,
    ⟨"m2", some "other", none, none, none, none, none⟩],
   [("g", ⟨some "G", none, none⟩), ("other", ⟨some "O", none, none⟩)], []⟩

/-- **C9, witness**: deleting group `"g"` keeps both combatants and removes only the
`"g"` metadata entry. -/
theorem C9_witness :
    (deleteGroupRun cexC9 "g").combatants.map (fun cb => cb.id)
        = cexC9.combatants.map (fun cb => cb.id) ∧
    membersOf (deleteGroupRun cexC9 "g") "g" = [] ∧
    lookupGroup (deleteGroupRun cexC9 "g").groups "g" = none :=
  ⟨(C9_theorem cexC9 "g").1, (C9_theorem cexC9 "g").2.2.1, (C9_theorem cexC9 "g").2.2.2⟩

/- ------------------------------------------------------------------ -/
/- C8 — shouldAutoPrompt                                              -/
/- ------------------------------------------------------------------ -/

def cexC8 : Combat := ⟨[], [("g", ⟨some "G", none, some 0⟩)], []⟩

/-- **C8, counterexample.**  A group with a *recorded* starting size of `0` (written by
`recordStartingSizes` for a group that was empty at encounter start), no living members,
threshold `50`, never prompted: the claim's formula (`0 ≤ floor(0 × 50 / 100)`) demands
`true`, but the code's `!startingSize || startingSize <= 0` guard returns `false`. -/
theorem C8_counterexample :
    shouldAutoPrompt cexC8 "g" 50 [] = false ∧
    shouldAutoPromptClaim cexC8 "g" 50 [] = true := by
  constructor
  · norm_num [shouldAutoPrompt, cexC8, lookupGroup]
  · norm_num [shouldAutoPromptClaim, cexC8, lookupGroup, getLivingMembers]

/-- **C8, amended.**  `shouldAutoPrompt` returns `true` iff the threshold is positive,
the group has not already been auto-prompted (regardless of how far the living count has
dropped, until explicitly reset), a *positive* starting size is recorded (a missing *or
zero-or-negative* recorded size yields `false`), and
`livingMemberCount ≤ floor(startingSize × threshold / 100)`. -/
theorem C8_theorem (c : Combat) (gid : String) (threshold : ℚ)
    (prompted : List String) :
    shouldAutoPrompt c gid threshold prompted = true ↔
      (0 < threshold ∧ gid ∉ prompted ∧
        ∃ ss : ℚ, (lookupGroup c.groups gid).bind (fun g => g.startingSize) = some ss ∧
          0 < ss ∧
          ((getLivingMembers c gid).length : ℤ) ≤ ⌊ss * threshold / 100⌋) := by
  unfold shouldAutoPrompt
  split_ifs with h1 h2
  · simp [not_lt.mpr h1]
  · simp [h2]
  · cases hss : (lookupGroup c.groups gid).bind (fun g => g.startingSize) with
    | none => simp [hss, not_le.mp h1, h2]
    | some ss =>
      dsimp only
      split_ifs with h3
      · simp only [Bool.false_eq_true, false_iff]
        rintro ⟨-, -, ss', hss', h0, -⟩
        rw [Option.some_inj] at hss'
        exact absurd (hss' ▸ h0) (not_lt.mpr h3)
      · rw [decide_eq_true_eq]
        constructor
        · intro hle
          exact ⟨not_le.mp h1, h2, ss, rfl, not_le.mp h3, by rwa [mul_div_assoc]⟩
        · rintro ⟨-, -, ss', hss', -, hle⟩
          rw [Option.some_inj] at hss'
          subst hss'
          rwa [mul_div_assoc] at hle

/-- **C8, witness**: threshold `50`, starting size `4`, one living member of two —
`1 ≤ floor(4 × 50 / 100) = 2`, so the prompt fires. -/
def cexC8w : Combat :=
  ⟨[⟨"m1", some "g", none, none, none, some 5, none⟩,
    ⟨"m2", some "g", none, none, none, some 0, none⟩],
   [("g", ⟨some "G", none, some 4⟩)], []⟩

theorem C8_witness :
    shouldAutoPrompt cexC8w "g" 50 [] = true :=
  (C8_theorem cexC8w "g" 50 []).mpr
    ⟨by norm_num, by simp, 4, by norm_num [cexC8w, lookupGroup], by norm_num,
      by norm_num [getLivingMembers, cexC8w]⟩

/- ------------------------------------------------------------------ -/
/- C4 — bulk-roll guard: drop while held, one finalize per group      -/
/- ------------------------------------------------------------------ -/

theorem updateCombatantHook_of_bulk (c : Combat) (skipSet : List String) (s : GuardState)
    (n : Notification) (h : s.bulkRollInProgress = true) :
    updateCombatantHook c skipSet s n = s := by
  unfold updateCombatantHook
  by_cases h1 : ¬ n.initiativeChanged = true
  · rw [if_pos h1]
  · rw [if_neg h1]
    by_cases h2 : s.mutex = true
    · rw [if_pos h2]
    · rw [if_neg h2, if_pos h]

theorem foldl_hook_of_bulk (c : Combat) (skipSet : List String) (s : GuardState)
    (h : s.bulkRollInProgress = true) :
    ∀ notifs : List Notification, notifs.foldl (updateCombatantHook c skipSet) s = s := by
  intro notifs
  induction notifs with
  | nil => rfl
  | cons n rest ih =>
    rw [List.foldl_cons, updateCombatantHook_of_bulk c skipSet s n h]
    exact ih

theorem foldl_append_calls (keys : List String) :
    ∀ s : GuardState,
      keys.foldl (fun s gid => { s with finalizeCalls := s.finalizeCalls ++ [gid] }) s
        = { s with finalizeCalls := s.finalizeCalls ++ keys } := by
  induction keys with
  | nil => intro s; simp
  | cons k rest ih =>
    intro s
    rw [List.foldl_cons, ih]
    simp

theorem addKey_nodup {acc : List String} (id : String) (h : acc.Nodup) :
    (addKey acc id).Nodup := by
  unfold addKey
  split_ifs with hmem
  · exact h
  · simp [List.nodup_append, h, hmem]

theorem foldl_preserves_nodup {α : Type} (f : List String → α → List String)
    (hf : ∀ acc x, acc.Nodup → (f acc x).Nodup) :
    ∀ (l : List α) (acc : List String), acc.Nodup → (l.foldl f acc).Nodup := by
  intro l
  induction l with
  | nil => intro acc h; exact h
  | cons x rest ih => intro acc h; exact ih _ (hf acc x h)

theorem getGroupsKeys_nodup (combatants : List Combatant)
    (stored : List (String × GroupData)) : (getGroupsKeys combatants stored).Nodup := by
  unfold getGroupsKeys
  refine foldl_preserves_nodup _ ?_ stored _
    (foldl_preserves_nodup _ ?_ combatants [] List.nodup_nil)
  · intro acc g h
    dsimp only
    split_ifs
    · exact h
    · exact addKey_nodup _ h
  · intro acc cb h
    exact addKey_nodup _ h

/-- **C4, confirmed.**  While the bulk-roll flag is held, any number of
member-initiative notifications produce zero `finalizeGroupInitiative` invocations (the
call log gains nothing from `notifs`); when the wrapped bulk roll completes successfully,
`finalizeGroupInitiative` is invoked exactly once per non-ungrouped key of the group
index — and on a wrapped-operation failure not at all; in every case the
`finally`-equivalent block leaves the bulk flag cleared. -/
theorem C4_theorem (c : Combat) (skipSet : List String) (notifs : List Notification)
    (wrappedOk : Bool) (s0 : GuardState) :
    (wrapperRun c skipSet notifs wrappedOk s0).bulkRollInProgress = false ∧
    (wrapperRun c skipSet notifs wrappedOk s0).finalizeCalls
      = s0.finalizeCalls ++
        (if wrappedOk then
          (getGroupsKeys c.combatants c.groups).filter (fun g => g ≠ UNGROUPED)
         else []) ∧
    (∀ gid ∈ (getGroupsKeys c.combatants c.groups).filter (fun g => g ≠ UNGROUPED),
        wrappedOk = true → s0.finalizeCalls = [] →
          (wrapperRun c skipSet notifs wrappedOk s0).finalizeCalls.count gid = 1) := by
  have hs2 := foldl_hook_of_bulk c skipSet { s0 with bulkRollInProgress := true } rfl notifs
  have hmain : (wrapperRun c skipSet notifs wrappedOk s0).finalizeCalls
      = s0.finalizeCalls ++
        (if wrappedOk then
          (getGroupsKeys c.combatants c.groups).filter (fun g => g ≠ UNGROUPED)
         else []) ∧
      (wrapperRun c skipSet notifs wrappedOk s0).bulkRollInProgress = false := by
    unfold wrapperRun
    dsimp only
    rw [hs2]
    cases wrappedOk with
    | true =>
      rw [if_pos rfl, if_pos rfl, foldl_append_calls]
      exact ⟨rfl, rfl⟩
    | false =>
      rw [if_neg (by simp), if_neg (by simp)]
      simp
  refine ⟨hmain.2, hmain.1, ?_⟩
  intro gid hgid hok h0
  rw [hmain.1, h0, hok, if_pos rfl, List.nil_append]
  exact List.count_eq_one_of_mem
    ((getGroupsKeys_nodup c.combatants c.groups).filter _) hgid

def cexC4 : Combat :=
  ⟨[⟨"m1", some "g1", none, none, none, none, none⟩,
    ⟨"m2", some "g2", none, none, none, none, none⟩,
    ⟨"m3", none, none, none, none, none, none⟩],
   [("g1", ⟨some "A", none, none⟩), ("g3", ⟨some "C", none, none⟩)], []⟩

def cexC4notifs : List Notification :=
  [⟨"m1", some "g1", true⟩, ⟨"m1", some "g1", true⟩, ⟨"m2", some "g2", true⟩,
   ⟨"m2", some "g2", true⟩, ⟨"m1", some "g1", true⟩]

/-- **C4, witness**: five grouped-member notifications during the bulk roll produce no
finalize call; afterwards `"g1"` is finalized exactly once, and the flag is down. -/
theorem C4_witness :
    ("g1" ∈ (getGroupsKeys cexC4.combatants cexC4.groups).filter (fun g => g ≠ UNGROUPED)) ∧
    (wrapperRun cexC4 [] cexC4notifs true ⟨false, false, []⟩).finalizeCalls.count "g1" = 1 ∧
    (wrapperRun cexC4 [] cexC4notifs true ⟨false, false, []⟩).bulkRollInProgress = false :=
  ⟨by decide,
   (C4_theorem cexC4 [] cexC4notifs true ⟨false, false, []⟩).2.2 "g1" (by decide) rfl rfl,
   (C4_theorem cexC4 [] cexC4notifs true ⟨false, false, []⟩).1⟩

/- ------------------------------------------------------------------ -/
/- C6 — persistence failure: flags cleared, error handling            -/
/- ------------------------------------------------------------------ -/

theorem applyGroupOrderUpdates_eq_some (c : Combat) (gid : String) (l : List Entry)
    (K : ℚ) (h : l ≠ []) :
    ∃ us avg, applyGroupOrderUpdates c gid l K = some (us, avg) := by
  have hlen : ((sortMembers l).map (fun e => e.init)).length ≠ 0 := by
    rw [List.length_map, sortMembers, List.length_insertionSort]
    exact fun hc => h (List.length_eq_zero.mp hc)
  unfold applyGroupOrderUpdates
  dsimp only
  unfold calculateAverageInitiative
  rw [if_neg hlen]
  exact ⟨_, _, rfl⟩

/-- On a failed write, `_applyGroupOrder` clears the skip flag (when asked to) and
re-throws. -/
theorem applyGroupOrderRun_writeFail (c : Combat) (gid : String) (l : List Entry)
    (K : ℚ) (h : l ≠ []) :
    applyGroupOrderRun c gid l K false true = (unsetSkipFlag c gid, Except.error ()) := by
  obtain ⟨us, avg, hsome⟩ := applyGroupOrderUpdates_eq_some c gid l K h
  unfold applyGroupOrderRun
  rw [hsome]
  simp

/-- On a failed write, the `catch` block of `rollGroupAndApplyInitiative` unsets the skip
flag once more and returns normally. -/
theorem rollGroupRun_writeFail (c : Combat) (gid : String) (rolls : List ℚ) (K : ℚ)
    (h1 : ((membersOf c gid).filter (fun cb => cb.initiative = none)).length ≠ 0)
    (h2 : rolledEntries c gid rolls ≠ []) :
    rollGroupRun c gid rolls K false
      = (unsetSkipFlag (unsetSkipFlag (rollGroupMid c gid rolls) gid) gid,
          Except.ok ()) := by
  unfold rollGroupRun
  rw [if_neg h1, applyGroupOrderRun_writeFail (rollGroupMid c gid rolls) gid
    (rolledEntries c gid rolls) K h2]

/-- **C6, amended.**  When the persistence write issued during a group roll-and-finalize
fails, the per-group skip flag is cleared (guard flags are never left held), and the
failure is re-raised by the internal `_applyGroupOrder` — but the public operation
`rollGroupAndApplyInitiative` *catches* it at its boundary, surfaces a user notification
itself, and returns normally instead of re-raising to its caller. -/
theorem C6_theorem (c : Combat) (gid : String) (rolls : List ℚ) (K : ℚ)
    (h1 : ((membersOf c gid).filter (fun cb => cb.initiative = none)).length ≠ 0)
    (h2 : rolledEntries c gid rolls ≠ []) :
    (applyGroupOrderRun (rollGroupMid c gid rolls) gid (rolledEntries c gid rolls)
        K false true).2 = Except.error () ∧
    gid ∉ (rollGroupRun c gid rolls K false).1.skipFinalize ∧
    (rollGroupRun c gid rolls K false).2 = Except.ok () := by
  refine ⟨?_, ?_, ?_⟩
  · rw [applyGroupOrderRun_writeFail _ _ _ _ h2]
  · rw [rollGroupRun_writeFail c gid rolls K h1 h2]
    simp [unsetSkipFlag]
  · rw [rollGroupRun_writeFail c gid rolls K h1 h2]

def cexC6 : Combat :=
  ⟨[⟨"m1", some "g", none, none, some 2, none, some 0⟩],
   [("g", ⟨some "G", none, none⟩)], []⟩

/-- **C6, counterexample.**  The claim says the failure is re-raised to the caller of the
public operation; at a concrete failing write, `rollGroupAndApplyInitiative` returns
normally (`Except.ok`), not an error — the failure is swallowed at the public boundary
(the skip flag *is* cleared). -/
theorem C6_counterexample :
    (rollGroupRun cexC6 "g" [12] 0 false).2 = Except.ok () ∧
    (rollGroupRun cexC6 "g" [12] 0 false).2 ≠ Except.error () ∧
    "g" ∉ (rollGroupRun cexC6 "g" [12] 0 false).1.skipFinalize := by
  have h1 : ((membersOf cexC6 "g").filter (fun cb => cb.initiative = none)).length ≠ 0 := by
    decide
  have h2 : rolledEntries cexC6 "g" [12] ≠ [] := by decide
  refine ⟨?_, ?_, ?_⟩
  · rw [rollGroupRun_writeFail cexC6 "g" [12] 0 h1 h2]
  · rw [rollGroupRun_writeFail cexC6 "g" [12] 0 h1 h2]
    simp
  · rw [rollGroupRun_writeFail cexC6 "g" [12] 0 h1 h2]
    simp [unsetSkipFlag]

/-- **C6, witness** for the amended theorem, at the same failing configuration. -/
theorem C6_witness :
    ((membersOf cexC6 "g").filter (fun cb => cb.initiative = none)).length ≠ 0 ∧
    rolledEntries cexC6 "g" [12] ≠ [] ∧
    (applyGroupOrderRun (rollGroupMid cexC6 "g" [12]) "g" (rolledEntries cexC6 "g" [12])
        0 false true).2 = Except.error () :=
  ⟨by decide, by decide, (C6_theorem cexC6 "g" [12] 0 (by decide) (by decide)).1⟩

/- ------------------------------------------------------------------ -/
/- buildUpdates: positional characterization                          -/
/- ------------------------------------------------------------------ -/

theorem buildUpdates_length (b a off : ℚ) (n : ℕ) :
    ∀ (l : List Entry) (start : ℕ), (buildUpdates b a off n start l).length = l.length := by
  intro l
  induction l with
  | nil => intro start; rfl
  | cons e rest ih =>
    intro start
    rw [buildUpdates, List.length_cons, List.length_cons, ih]

theorem buildUpdates_getElem? (b a off : ℚ) (n : ℕ) :
    ∀ (l : List Entry) (start i : ℕ),
      (buildUpdates b a off n start l)[i]?
        = (l[i]?).map (fun e =>
            (⟨e.cid, b + ((start + i : ℕ) : ℚ) * SORT_INCREMENT,
              toFixed2 (a + off + ((n : ℚ) - ((start + i : ℕ) : ℚ)) * STAGGER_INCREMENT)⟩
              : MemberUpdate)) := by
  intro l
  induction l with
  | nil => intro start i; simp [buildUpdates]
  | cons e rest ih =>
    intro start i
    cases i with
    | zero => simp [buildUpdates]
    | succ j =>
      rw [buildUpdates, List.getElem?_cons_succ, List.getElem?_cons_succ, ih (start + 1) j]
      have harith : start + 1 + j = start + (j + 1) := by omega
      rw [harith]

/-- The encoded member values strictly decrease with the position in the sorted order. -/
theorem encoded_strict_anti (A : ℚ) (n : ℕ) {i j : ℕ} (h : i < j) :
    toFixed2 (A + ((n : ℚ) - j) * STAGGER_INCREMENT)
      < toFixed2 (A + ((n : ℚ) - i) * STAGGER_INCREMENT) := by
  have h1 : A + ((n : ℚ) - i) * STAGGER_INCREMENT
      = (A + (n : ℚ) * STAGGER_INCREMENT) + ((-(i : ℤ) : ℤ) : ℚ) / 100 := by
    unfold STAGGER_INCREMENT
    push_cast
    ring
  have h2 : A + ((n : ℚ) - j) * STAGGER_INCREMENT
      = (A + (n : ℚ) * STAGGER_INCREMENT) + ((-(j : ℤ) : ℤ) : ℚ) / 100 := by
    unfold STAGGER_INCREMENT
    push_cast
    ring
  rw [h1, h2, toFixed2_add_div100, toFixed2_add_div100]
  have hij : (i : ℚ) < (j : ℚ) := by exact_mod_cast h
  have : ((-(j : ℤ) : ℤ) : ℚ) < ((-(i : ℤ) : ℤ) : ℚ) := by push_cast; linarith
  linarith

/-- Destructuring a successful `finalizeCompute`. -/
theorem finalizeCompute_eq (c : Combat) (gid : String) (K : ℚ) {us : List MemberUpdate}
    {avg : ℚ} (h : finalizeCompute c gid K = some (us, avg)) :
    membersOf c gid ≠ [] ∧
    us = buildUpdates (baseSortOf c) avg (groupOffsetOf c gid avg K)
      (sortMembers (shapedMembers c gid)).length 0 (sortMembers (shapedMembers c gid)) ∧
    some avg
      = calculateAverageInitiative
          ((sortMembers (shapedMembers c gid)).map (fun e => e.init)) := by
  unfold finalizeCompute at h
  dsimp only at h
  by_cases h0 : (membersOf c gid).length = 0
  · rw [if_pos h0] at h
    exact absurd h (by simp)
  · rw [if_neg h0] at h
    by_cases h1 : (membersOf c gid).all (fun cb => cb.initiative.isSome)
    · rw [if_pos h1] at h
      unfold applyGroupOrderUpdates at h
      dsimp only at h
      cases hcalc : calculateAverageInitiative
          ((sortMembers (shapedMembers c gid)).map (fun e => e.init)) with
      | none => rw [hcalc] at h; exact absurd h (by simp)
      | some a =>
        rw [hcalc] at h
        dsimp only at h
        rw [Option.some_inj, Prod.mk.injEq] at h
        refine ⟨fun hc => h0 (by rw [hc]; rfl), ?_, ?_⟩
        · rw [← h.1, ← h.2]
        · rw [← h.2]
    · rw [if_neg h1] at h
      exact absurd h (by simp)

/- ------------------------------------------------------------------ -/
/- C3 — intra-group ordering after finalize                           -/
/- ------------------------------------------------------------------ -/

/-- **C3, amended.**  After a successful finalize: the member order is descending by
individual initiative with ties broken by descending dexterity; it is a permutation of
the group's members; members with *exactly* tied initiative and dexterity keep their
relative order from the combatant enumeration (the sort is stable — the fallback is the
input order, not member identity); and the encoded sortable values strictly decrease
along that order, so no two members of the group share an encoded value. -/
theorem C3_theorem (c : Combat) (gid : String) (K : ℚ) (us : List MemberUpdate)
    (avg : ℚ) (h : finalizeCompute c gid K = some (us, avg)) :
    (∀ i j : Fin (sortMembers (shapedMembers c gid)).length, i < j →
        ((sortMembers (shapedMembers c gid)).get j).init
            < ((sortMembers (shapedMembers c gid)).get i).init ∨
          (((sortMembers (shapedMembers c gid)).get j).init
              = ((sortMembers (shapedMembers c gid)).get i).init ∧
            ((sortMembers (shapedMembers c gid)).get j).dex
              ≤ ((sortMembers (shapedMembers c gid)).get i).dex)) ∧
    (sortMembers (shapedMembers c gid)).Perm (shapedMembers c gid) ∧
    (∀ a b : Entry, a.init = b.init → a.dex = b.dex →
        [a, b].Sublist (shapedMembers c gid) →
        [a, b].Sublist (sortMembers (shapedMembers c gid))) ∧
    (∀ i j : Fin us.length, (i : ℕ) < (j : ℕ) →
        (us.get j).initiative < (us.get i).initiative) ∧
    us.length = (membersOf c gid).length := by
  obtain ⟨hne, hus, -⟩ := finalizeCompute_eq c gid K h
  have hsorted := List.sorted_insertionSort entryLE (shapedMembers c gid)
  refine ⟨?_, ?_, ?_, ?_, ?_⟩
  · intro i j hij
    exact List.pairwise_iff_get.mp hsorted i j hij
  · exact List.perm_insertionSort entryLE (shapedMembers c gid)
  · intro a b h1 h2 hsub
    exact List.pair_sublist_insertionSort
      (Or.inr ⟨h1.symm, h2.symm.le⟩) hsub
  · intro i j hij
    have hgets := buildUpdates_getElem? (baseSortOf c) avg (groupOffsetOf c gid avg K)
      (sortMembers (shapedMembers c gid)).length (sortMembers (shapedMembers c gid)) 0
    have hlen : us.length = (sortMembers (shapedMembers c gid)).length := by
      rw [hus, buildUpdates_length]
    have hi' : (i : ℕ) < (sortMembers (shapedMembers c gid)).length := by
      rw [← hlen]; exact i.isLt
    have hj' : (j : ℕ) < (sortMembers (shapedMembers c gid)).length := by
      rw [← hlen]; exact j.isLt
    have hvi : us[(i : ℕ)]? = some (us.get i) := by
      rw [List.getElem?_eq_getElem i.isLt]
      rfl
    have hvj : us[(j : ℕ)]? = some (us.get j) := by
      rw [List.getElem?_eq_getElem j.isLt]
      rfl
    have hbi : us[(i : ℕ)]?
        = some (⟨((sortMembers (shapedMembers c gid)).get ⟨(i : ℕ), hi'⟩).cid,
            baseSortOf c + ((0 + (i : ℕ) : ℕ) : ℚ) * SORT_INCREMENT,
            toFixed2 (avg + groupOffsetOf c gid avg K
              + (((sortMembers (shapedMembers c gid)).length : ℚ) - ((0 + (i : ℕ) : ℕ) : ℚ))
                * STAGGER_INCREMENT)⟩ : MemberUpdate) := by
      rw [congrArg (fun l => l[(i : ℕ)]?) hus, hgets (i : ℕ),
        List.getElem?_eq_getElem hi', Option.map_some']
      rfl
    have hbj : us[(j : ℕ)]?
        = some (⟨((sortMembers (shapedMembers c gid)).get ⟨(j : ℕ), hj'⟩).cid,
            baseSortOf c + ((0 + (j : ℕ) : ℕ) : ℚ) * SORT_INCREMENT,
            toFixed2 (avg + groupOffsetOf c gid avg K
              + (((sortMembers (shapedMembers c gid)).length : ℚ) - ((0 + (j : ℕ) : ℕ) : ℚ))
                * STAGGER_INCREMENT)⟩ : MemberUpdate) := by
      rw [congrArg (fun l => l[(j : ℕ)]?) hus, hgets (j : ℕ),
        List.getElem?_eq_getElem hj', Option.map_some']
      rfl
    have hgi := Option.some_inj.mp (hvi.symm.trans hbi)
    have hgj := Option.some_inj.mp (hvj.symm.trans hbj)
    rw [hgi, hgj]
    simp only [Nat.zero_add]
    exact encoded_strict_anti _ _ hij
  · rw [hus, buildUpdates_length, sortMembers, List.length_insertionSort, shapedMembers,
      List.length_map]

def cexC3a : Combat :=
  ⟨[⟨"mb", some "g", some 10, some 10, none, none, none⟩,
    ⟨"ma", some "g", some 10, some 10, none, none, none⟩],
   [("g", ⟨some "G", none, none⟩)], []⟩

def cexC3b : Combat :=
  ⟨[⟨"ma", some "g", some 10, some 10, none, none, none⟩,
    ⟨"mb", some "g", some 10, some 10, none, none, none⟩],
   [("g", ⟨some "G", none, none⟩)], []⟩

/-- **C3, counterexample.**  Two members with identical initiative *and* dexterity: the
same member set enumerated in two orders finalizes to two different member orders — the
tie is broken by the stable input order, not by any member-identity comparison, so the
order is not the deterministic function of (initiative, tiebreak, identity) the claim
describes. -/
theorem C3_counterexample :
    (finalizeCompute cexC3a "g" 0).map (fun p => p.1.map (fun u => u.id))
      = some ["mb", "ma"] ∧
    (finalizeCompute cexC3b "g" 0).map (fun p => p.1.map (fun u => u.id))
      = some ["ma", "mb"] ∧
    cexC3a.combatants.Perm cexC3b.combatants := by
  refine ⟨?_, ?_, ?_⟩
  · norm_num [finalizeCompute, cexC3a, membersOf, shapedMembers, applyGroupOrderUpdates,
      sortMembers, List.insertionSort, List.orderedInsert, entryLE, qLex,
      calculateAverageInitiative, jsRound, groupOffsetOf, groupsWithInit, rankLE,
      baseSortOf, minSorts, buildUpdates, rankOffset, toFixed2, STAGGER_INCREMENT,
      SORT_BASE_OFFSET, SORT_INCREMENT, lookupGroup]
  · norm_num [finalizeCompute, cexC3b, membersOf, shapedMembers, applyGroupOrderUpdates,
      sortMembers, List.insertionSort, List.orderedInsert, entryLE, qLex,
      calculateAverageInitiative, jsRound, groupOffsetOf, groupsWithInit, rankLE,
      baseSortOf, minSorts, buildUpdates, rankOffset, toFixed2, STAGGER_INCREMENT,
      SORT_BASE_OFFSET, SORT_INCREMENT, lookupGroup]
  · exact List.Perm.swap _ _ _

def cexC3w : Combat :=
  ⟨[⟨"ma", some "g", some 12, some 14, none, none, some 0⟩,
    ⟨"mb", some "g", some 10, some 8, none, none, some 0⟩],
   [("g", ⟨some "G", none, none⟩)], []⟩

/-- **C3, witness** for the amended theorem at a concrete two-member group. -/
theorem C3_witness :
    finalizeCompute cexC3w "g" 0
      = some ([⟨"ma", -1000, 1102/100⟩, ⟨"mb", -900, 1101/100⟩], 11) ∧
    (sortMembers (shapedMembers cexC3w "g")).Perm (shapedMembers cexC3w "g") := by
  have h : finalizeCompute cexC3w "g" 0
      = some ([⟨"ma", -1000, 1102/100⟩, ⟨"mb", -900, 1101/100⟩], 11) := by
    norm_num [finalizeCompute, cexC3w, membersOf, shapedMembers, applyGroupOrderUpdates,
      sortMembers, List.insertionSort, List.orderedInsert, entryLE, qLex,
      calculateAverageInitiative, jsRound, groupOffsetOf, groupsWithInit, rankLE,
      baseSortOf, minSorts, buildUpdates, rankOffset, toFixed2, STAGGER_INCREMENT,
      SORT_BASE_OFFSET, SORT_INCREMENT, lookupGroup]
  exact ⟨h, (C3_theorem cexC3w "g" 0 _ 11 h).2.1⟩

/- ------------------------------------------------------------------ -/
/- C1 — offset encoding and cross-group separation                    -/
/- ------------------------------------------------------------------ -/

theorem calculateAverageInitiative_int {l : List ℚ} {v : ℚ}
    (h : calculateAverageInitiative l = some v) : ∃ z : ℤ, v = (z : ℚ) := by
  unfold calculateAverageInitiative at h
  by_cases h0 : l.length = 0
  · rw [if_pos h0] at h
    exact absurd h (by simp)
  · rw [if_neg h0, Option.some_inj] at h
    exact h ▸ jsRound_isInt _

theorem rankOffset_mul100 {K : ℚ} (hK100 : ∃ m : ℤ, K = (m : ℚ) / 100) (r : ℕ) :
    ∃ z : ℤ, rankOffset K r * 100 = (z : ℚ) := by
  obtain ⟨m, hm⟩ := hK100
  unfold rankOffset
  split_ifs
  · exact ⟨(r : ℤ) * m, by rw [hm]; push_cast; ring⟩
  · exact ⟨0, by norm_num⟩

theorem groupOffsetOf_mul100 {K : ℚ} (hK100 : ∃ m : ℤ, K = (m : ℚ) / 100)
    (c : Combat) (gid : String) (avg : ℚ) :
    ∃ z : ℤ, groupOffsetOf c gid avg K * 100 = (z : ℚ) := by
  unfold groupOffsetOf
  cases hfind : (groupsWithInit c gid avg).findIdx? (fun e => e.id = gid) with
  | none => exact ⟨0, by norm_num⟩
  | some r => exact rankOffset_mul100 hK100 r

/-- Destructuring a successful `applyGroupOrderUpdates`. -/
theorem applyGroupOrderUpdates_eq (c : Combat) (gid : String) (list : List Entry) (K : ℚ)
    {us : List MemberUpdate} {avg : ℚ}
    (h : applyGroupOrderUpdates c gid list K = some (us, avg)) :
    us = buildUpdates (baseSortOf c) avg (groupOffsetOf c gid avg K)
        (sortMembers list).length 0 (sortMembers list) ∧
    some avg = calculateAverageInitiative ((sortMembers list).map (fun e => e.init)) := by
  unfold applyGroupOrderUpdates at h
  dsimp only at h
  cases hcalc : calculateAverageInitiative ((sortMembers list).map (fun e => e.init)) with
  | none => rw [hcalc] at h; exact absurd h (by simp)
  | some a =>
    rw [hcalc] at h
    dsimp only at h
    rw [Option.some_inj, Prod.mk.injEq] at h
    exact ⟨by rw [← h.1, ← h.2], by rw [← h.2]⟩

/-- **C1, amended.**  For a successful `_applyGroupOrder` computation (with the
spec-modelled per-rank constant `K` positive and of at most two decimal places):
(1) the aggregate is an integer; (2) the member at position `i` of the sorted order is
persisted exactly `aggregate + groupRankOffset + memberStagger`, with `memberStagger =
(n - i) · 0.01`; (3) the rank-offset schedule is `0` at rank 0 and strictly increasing
per rank; (4) `groupOffset` is the schedule applied to the group's computed rank; (5) in
the group ranking, a strictly higher aggregate always means a strictly smaller rank; and
(6) across two groups, every member of the higher-aggregate group has a strictly greater
encoded value than every member of the lower-aggregate group *provided* the rank gap
times `K` plus the lower group's stagger span stays below the aggregate difference —
the bound the counterexample shows necessary. -/
theorem C1_theorem (K : ℚ) (hK : 0 < K) (hK100 : ∃ m : ℤ, K = (m : ℚ) / 100)
    (c : Combat) (gid : String) (list : List Entry) (us : List MemberUpdate) (avg : ℚ)
    (h : applyGroupOrderUpdates c gid list K = some (us, avg)) :
    (∃ z : ℤ, avg = (z : ℚ)) ∧
    (∀ i : ℕ, ∀ hi : i < us.length,
        (us.get ⟨i, hi⟩).initiative
          = avg + groupOffsetOf c gid avg K
              + (((sortMembers list).length : ℚ) - (i : ℚ)) * STAGGER_INCREMENT) ∧
    (rankOffset K 0 = 0 ∧
      ∀ r₁ r₂ : ℕ, r₁ < r₂ → rankOffset K r₁ < rankOffset K r₂) ∧
    (∀ r : ℕ, (groupsWithInit c gid avg).findIdx? (fun e => e.id = gid) = some r →
        groupOffsetOf c gid avg K = rankOffset K r) ∧
    (∀ i j : Fin (groupsWithInit c gid avg).length,
        ((groupsWithInit c gid avg).get j).initiative
            < ((groupsWithInit c gid avg).get i).initiative → (i : ℕ) < (j : ℕ)) ∧
    (∀ (a₁ a₂ : ℤ) (r₁ r₂ n₁ n₂ i₁ i₂ : ℕ),
        a₂ < a₁ → r₁ < r₂ → i₁ < n₁ → i₂ < n₂ →
        ((r₂ : ℚ) - (r₁ : ℚ)) * K + ((n₂ : ℚ) - 1) / 100 < (a₁ : ℚ) - (a₂ : ℚ) →
        toFixed2 ((a₂ : ℚ) + rankOffset K r₂ + ((n₂ : ℚ) - (i₂ : ℚ)) * STAGGER_INCREMENT)
          < toFixed2 ((a₁ : ℚ) + rankOffset K r₁
              + ((n₁ : ℚ) - (i₁ : ℚ)) * STAGGER_INCREMENT)) := by
  obtain ⟨hus, hcalc⟩ := applyGroupOrderUpdates_eq c gid list K h
  obtain ⟨za, hza⟩ := calculateAverageInitiative_int hcalc.symm
  obtain ⟨zo, hzo⟩ := groupOffsetOf_mul100 hK100 c gid avg
  refine ⟨⟨za, hza⟩, ?_, ⟨by simp [rankOffset], ?_⟩, ?_, ?_, ?_⟩
  · -- (2) the exact encoding of each persisted member initiative
    intro i hi
    have hlen : us.length = (sortMembers list).length := by
      rw [hus, buildUpdates_length]
    have hi' : i < (sortMembers list).length := by rw [← hlen]; exact hi
    have hvi : us[i]? = some (us.get ⟨i, hi⟩) := by
      rw [List.getElem?_eq_getElem hi]
      rfl
    have hbi : us[i]?
        = some (⟨((sortMembers list).get ⟨i, hi'⟩).cid,
            baseSortOf c + ((0 + i : ℕ) : ℚ) * SORT_INCREMENT,
            toFixed2 (avg + groupOffsetOf c gid avg K
              + (((sortMembers list).length : ℚ) - ((0 + i : ℕ) : ℚ))
                * STAGGER_INCREMENT)⟩ : MemberUpdate) := by
      rw [congrArg (fun l => l[i]?) hus,
        buildUpdates_getElem? (baseSortOf c) avg (groupOffsetOf c gid avg K)
          (sortMembers list).length (sortMembers list) 0 i,
        List.getElem?_eq_getElem hi', Option.map_some']
      rfl
    have hgi := Option.some_inj.mp (hvi.symm.trans hbi)
    rw [hgi]
    simp only [Nat.zero_add]
    have hexact : ∃ z : ℤ, (avg + groupOffsetOf c gid avg K
        + (((sortMembers list).length : ℚ) - (i : ℚ)) * STAGGER_INCREMENT) * 100
          = (z : ℚ) := by
      refine ⟨za * 100 + zo + (((sortMembers list).length : ℤ) - (i : ℤ)), ?_⟩
      unfold STAGGER_INCREMENT
      push_cast
      linarith [hza, hzo]
    exact toFixed2_eq_self hexact
  · -- (3) strict monotonicity of the rank-offset schedule
    intro r₁ r₂ hlt
    unfold rankOffset
    by_cases h1 : 0 < r₁
    · rw [if_pos h1, if_pos (h1.trans hlt)]
      have : (r₁ : ℚ) < (r₂ : ℚ) := by exact_mod_cast hlt
      exact mul_lt_mul_of_pos_right this hK
    · have hr1 : r₁ = 0 := Nat.eq_zero_of_not_pos h1
      rw [if_neg h1, if_pos (hr1 ▸ hlt)]
      have : (0 : ℚ) < (r₂ : ℚ) := by exact_mod_cast hr1 ▸ hlt
      exact mul_pos this hK
  · -- (4) the offset actually used is the schedule at the computed rank
    intro r hr
    unfold groupOffsetOf
    rw [hr]
  · -- (5) higher aggregate means strictly smaller rank in the sorted ranking
    intro i j hlt
    have hsorted : List.Sorted rankLE (groupsWithInit c gid avg) := by
      unfold groupsWithInit
      exact List.sorted_insertionSort rankLE _
    by_contra hc
    push_neg at hc
    rcases Nat.lt_or_ge (j : ℕ) (i : ℕ) with hji | hij
    · have hr := List.pairwise_iff_get.mp hsorted j i (by exact hji)
      have := qLex_key_le hr
      exact absurd hlt (not_lt.mpr this)
    · have : (i : ℕ) = (j : ℕ) := le_antisymm hij hc
      have hgij : (groupsWithInit c gid avg).get i = (groupsWithInit c gid avg).get j := by
        congr 1
        exact Fin.ext this
      rw [hgij] at hlt
      exact lt_irrefl _ hlt
  · -- (6) bounded cross-group separation
    intro a₁ a₂ r₁ r₂ n₁ n₂ i₁ i₂ ha hr hi₁ hi₂ hbound
    obtain ⟨z₁, hz₁⟩ := rankOffset_mul100 hK100 r₁
    obtain ⟨z₂, hz₂⟩ := rankOffset_mul100 hK100 r₂
    have he₁ : toFixed2 ((a₁ : ℚ) + rankOffset K r₁
        + ((n₁ : ℚ) - (i₁ : ℚ)) * STAGGER_INCREMENT)
        = (a₁ : ℚ) + rankOffset K r₁ + ((n₁ : ℚ) - (i₁ : ℚ)) * STAGGER_INCREMENT := by
      refine toFixed2_eq_self ⟨a₁ * 100 + z₁ + ((n₁ : ℤ) - (i₁ : ℤ)), ?_⟩
      unfold STAGGER_INCREMENT
      push_cast
      linarith [hz₁]
    have he₂ : toFixed2 ((a₂ : ℚ) + rankOffset K r₂
        + ((n₂ : ℚ) - (i₂ : ℚ)) * STAGGER_INCREMENT)
        = (a₂ : ℚ) + rankOffset K r₂ + ((n₂ : ℚ) - (i₂ : ℚ)) * STAGGER_INCREMENT := by
      refine toFixed2_eq_self ⟨a₂ * 100 + z₂ + ((n₂ : ℤ) - (i₂ : ℤ)), ?_⟩
      unfold STAGGER_INCREMENT
      push_cast
      linarith [hz₂]
    rw [he₁, he₂]
    have hoff : rankOffset K r₂ - rankOffset K r₁ ≤ ((r₂ : ℚ) - (r₁ : ℚ)) * K := by
      unfold rankOffset
      by_cases h1 : 0 < r₁
      · rw [if_pos h1, if_pos (h1.trans hr)]
        ring_nf
        exact le_refl _
      · have hr1 : r₁ = 0 := Nat.eq_zero_of_not_pos h1
        subst hr1
        rw [if_neg h1, if_pos hr]
        push_cast
        ring_nf
        exact le_refl _
    have hstag₂ : ((n₂ : ℚ) - (i₂ : ℚ)) * STAGGER_INCREMENT ≤ (n₂ : ℚ) / 100 := by
      unfold STAGGER_INCREMENT
      have : (0 : ℚ) ≤ (i₂ : ℚ) := by positivity
      nlinarith
    have hstag₁ : (1 : ℚ) / 100 ≤ ((n₁ : ℚ) - (i₁ : ℚ)) * STAGGER_INCREMENT := by
      unfold STAGGER_INCREMENT
      have : (i₁ : ℚ) + 1 ≤ (n₁ : ℚ) := by exact_mod_cast hi₁
      nlinarith
    have ha' : (a₂ : ℚ) < (a₁ : ℚ) := by exact_mod_cast ha
    linarith

def cexC1 : Combat :=
  ⟨[⟨"a1", some "A", some 15, none, none, none, none⟩,
    ⟨"b1", some "B", some 14, none, none, none, none⟩,
    ⟨"b2", some "B", some 14, none, none, none, none⟩],
   [("A", ⟨some "GA", none, none⟩),
    ("F1", ⟨some "F1", some (149/10), none⟩),
    ("F2", ⟨some "F2", some (148/10), none⟩),
    ("F3", ⟨some "F3", some (147/10), none⟩),
    ("F4", ⟨some "F4", some (146/10), none⟩),
    ("B", ⟨some "GB", none, none⟩)], []⟩

def cexC1a : Combat := (finalizeRun cexC1 "A" (1/5) true).1

def cexC1b : Combat := (finalizeRun cexC1a "B" (1/5) true).1

def cexC1aVal : Combat :=
  ⟨[⟨"a1", some "A", some (1501/100), none, none, none, some (-1000)⟩,
    ⟨"b1", some "B", some 14, none, none, none, none⟩,
    ⟨"b2", some "B", some 14, none, none, none, none⟩],
   [("A", ⟨some "GA", some 15, none⟩),
    ("F1", ⟨some "F1", some (149/10), none⟩),
    ("F2", ⟨some "F2", some (148/10), none⟩),
    ("F3", ⟨some "F3", some (147/10), none⟩),
    ("F4", ⟨some "F4", some (146/10), none⟩),
    ("B", ⟨some "GB", none, none⟩)], []⟩

def cexC1bVal : Combat :=
  ⟨[⟨"a1", some "A", some (1501/100), none, none, none, some (-1000)⟩,
    ⟨"b1", some "B", some (1502/100), none, none, none, some (-2000)⟩,
    ⟨"b2", some "B", some (1501/100), none, none, none, some (-1900)⟩],
   [("A", ⟨some "GA", some 15, none⟩),
    ("F1", ⟨some "F1", some (149/10), none⟩),
    ("F2", ⟨some "F2", some (148/10), none⟩),
    ("F3", ⟨some "F3", some (147/10), none⟩),
    ("F4", ⟨some "F4", some (146/10), none⟩),
    ("B", ⟨some "GB", some 14, none⟩)], []⟩

set_option maxHeartbeats 1600000

theorem cexC1a_eval : cexC1a = cexC1aVal := by
  rw [cexC1a]
  repeat
    first
    | rfl
    | norm_num [cexC1, cexC1aVal, finalizeRun, finalizeCompute, membersOf,
        shapedMembers, applyGroupOrderRun, applyGroupOrderUpdates, sortMembers,
        List.insertionSort, List.orderedInsert, entryLE, rankLE, qLex,
        calculateAverageInitiative, jsRound, groupOffsetOf, groupsWithInit,
        rankOffset, baseSortOf, minSorts, buildUpdates, toFixed2,
        STAGGER_INCREMENT, SORT_BASE_OFFSET, SORT_INCREMENT, lookupGroup,
        setGroupFlagInitiative, applyUpdate, unsetSkipFlag,
        List.find?, List.findIdx?, List.filterMap]
    | simp [cexC1, cexC1aVal, finalizeRun, finalizeCompute, membersOf,
        shapedMembers, applyGroupOrderRun, applyGroupOrderUpdates, sortMembers,
        List.insertionSort, List.orderedInsert, entryLE, rankLE, qLex,
        calculateAverageInitiative, jsRound, groupOffsetOf, groupsWithInit,
        rankOffset, baseSortOf, minSorts, buildUpdates, toFixed2,
        STAGGER_INCREMENT, SORT_BASE_OFFSET, SORT_INCREMENT, lookupGroup,
        setGroupFlagInitiative, applyUpdate, unsetSkipFlag,
        List.find?, List.findIdx?, List.filterMap]

theorem cexC1b_eval : cexC1b = cexC1bVal := by
  rw [cexC1b, cexC1a_eval]
  repeat
    first
    | rfl
    | norm_num [cexC1aVal, cexC1bVal, finalizeRun, finalizeCompute, membersOf,
        shapedMembers, applyGroupOrderRun, applyGroupOrderUpdates, sortMembers,
        List.insertionSort, List.orderedInsert, entryLE, rankLE, qLex,
        calculateAverageInitiative, jsRound, groupOffsetOf, groupsWithInit,
        rankOffset, baseSortOf, minSorts, buildUpdates, toFixed2,
        STAGGER_INCREMENT, SORT_BASE_OFFSET, SORT_INCREMENT, lookupGroup,
        setGroupFlagInitiative, applyUpdate, unsetSkipFlag,
        List.find?, List.findIdx?, List.filterMap]
    | simp [cexC1aVal, cexC1bVal, finalizeRun, finalizeCompute, membersOf,
        shapedMembers, applyGroupOrderRun, applyGroupOrderUpdates, sortMembers,
        List.insertionSort, List.orderedInsert, entryLE, rankLE, qLex,
        calculateAverageInitiative, jsRound, groupOffsetOf, groupsWithInit,
        rankOffset, baseSortOf, minSorts, buildUpdates, toFixed2,
        STAGGER_INCREMENT, SORT_BASE_OFFSET, SORT_INCREMENT, lookupGroup,
        setGroupFlagInitiative, applyUpdate, unsetSkipFlag,
        List.find?, List.findIdx?, List.filterMap]

set_option maxHeartbeats 200000

/-- **C1, counterexample** (with the spec-modelled per-rank constant at `K = 1/5`; the
violation arises for *any* positive constant, by scaling the rank gap).  After
finalizing group `A` (aggregate `15`, rank 0) and group `B` (aggregate `14`, rank 5
behind four metadata-only groups at `14.9 … 14.6`), the top member of the lower-aggregate group `B`
is encoded `15.02` — strictly above the member of the higher-aggregate group `A` at
`15.01`, violating the claimed unconditional cross-group separation. -/
theorem C1_counterexample :
    (lookupGroup cexC1b.groups "A").bind (fun g => g.initiative) = some 15 ∧
    (lookupGroup cexC1b.groups "B").bind (fun g => g.initiative) = some 14 ∧
    (cexC1b.combatants.find? (fun cb => cb.id = "a1")).bind (fun cb => cb.initiative)
      = some (1501/100) ∧
    (cexC1b.combatants.find? (fun cb => cb.id = "b1")).bind (fun cb => cb.initiative)
      = some (1502/100) ∧
    (1501/100 : ℚ) < 1502/100 := by
  rw [cexC1b_eval]
  refine ⟨?_, ?_, ?_, ?_, by norm_num⟩ <;>
    simp [cexC1bVal, lookupGroup, List.find?]

def cexC1w : Combat :=
  ⟨[⟨"m1", some "g", some 12, some 14, none, none, some 0⟩,
    ⟨"m2", some "g", some 10, some 8, none, none, some 0⟩],
   [("g", ⟨some "G", none, none⟩)], []⟩

def cexC1wList : List Entry := [⟨"m1", 12, 14⟩, ⟨"m2", 10, 8⟩]

def cexC1wUpdates : List MemberUpdate :=
  [⟨"m1", -1000, 1102/100⟩, ⟨"m2", -900, 1101/100⟩]

theorem cexC1w_eval :
    applyGroupOrderUpdates cexC1w "g" cexC1wList (1/5) = some (cexC1wUpdates, 11) := by
  repeat
    first
    | rfl
    | norm_num [cexC1w, cexC1wList, cexC1wUpdates, applyGroupOrderUpdates, sortMembers,
        List.insertionSort, List.orderedInsert, entryLE, rankLE, qLex, membersOf,
        calculateAverageInitiative, jsRound, groupOffsetOf, groupsWithInit, rankOffset,
        baseSortOf, minSorts, buildUpdates, toFixed2, STAGGER_INCREMENT,
        SORT_BASE_OFFSET, SORT_INCREMENT, lookupGroup, List.findIdx?, List.filterMap]
    | simp [cexC1w, cexC1wList, cexC1wUpdates, applyGroupOrderUpdates, sortMembers,
        List.insertionSort, List.orderedInsert, entryLE, rankLE, qLex, membersOf,
        calculateAverageInitiative, jsRound, groupOffsetOf, groupsWithInit, rankOffset,
        baseSortOf, minSorts, buildUpdates, toFixed2, STAGGER_INCREMENT,
        SORT_BASE_OFFSET, SORT_INCREMENT, lookupGroup, List.findIdx?, List.filterMap]

/-- **C1, witness** for the amended theorem at a two-member group with `K = 1/5`. -/
theorem C1_witness :
    (0 : ℚ) < 1/5 ∧
    applyGroupOrderUpdates cexC1w "g" cexC1wList (1/5) = some (cexC1wUpdates, 11) ∧
    (∃ z : ℤ, (11 : ℚ) = (z : ℚ)) ∧ rankOffset (1/5) 0 = 0 :=
  ⟨by norm_num, cexC1w_eval,
   (C1_theorem (1/5) (by norm_num) ⟨20, by norm_num⟩ cexC1w "g" cexC1wList cexC1wUpdates
      11 cexC1w_eval).1,
   (C1_theorem (1/5) (by norm_num) ⟨20, by norm_num⟩ cexC1w "g" cexC1wList cexC1wUpdates
      11 cexC1w_eval).2.2.1.1⟩

/- ------------------------------------------------------------------ -/
/- C10 — helper lemmas on the persisted state                         -/
/- ------------------------------------------------------------------ -/

theorem setGroupFlagInitiative_combatants (c : Combat) (gid : String) (v : ℚ) :
    (setGroupFlagInitiative c gid v).combatants = c.combatants := by
  unfold setGroupFlagInitiative
  split_ifs <;> rfl

theorem lookupGroup_map_update (gid : String) (v : ℚ) :
    ∀ l : List (String × GroupData),
      lookupGroup (l.map (fun g =>
          if g.1 = gid then (g.1, { g.2 with initiative := some v }) else g)) gid
        = (lookupGroup l gid).map (fun d => { d with initiative := some v }) := by
  intro l
  induction l with
  | nil => rfl
  | cons g rest ih =>
    by_cases hg : g.1 = gid
    · rw [List.map_cons, if_pos hg, lookupGroup, lookupGroup, if_pos hg, if_pos hg]
      rfl
    · rw [List.map_cons, if_neg hg, lookupGroup, lookupGroup, if_neg hg, if_neg hg, ih]

theorem lookupGroup_append_right (gid : String) (d : GroupData) :
    ∀ l : List (String × GroupData), lookupGroup l gid = none →
      lookupGroup (l ++ [(gid, d)]) gid = some d := by
  intro l
  induction l with
  | nil => intro _; simp [lookupGroup]
  | cons g rest ih =>
    intro h
    rw [lookupGroup] at h
    by_cases hg : g.1 = gid
    · rw [if_pos hg] at h
      exact absurd h (by simp)
    · rw [if_neg hg] at h
      rw [List.cons_append, lookupGroup, if_neg hg]
      exact ih h

theorem lookupGroup_setGroupFlagInitiative (c : Combat) (gid : String) (v : ℚ) :
    (lookupGroup (setGroupFlagInitiative c gid v).groups gid).bind (fun g => g.initiative)
      = some v := by
  unfold setGroupFlagInitiative
  by_cases hp : (lookupGroup c.groups gid).isSome
  · rw [if_pos hp]
    show (lookupGroup (c.groups.map _) gid).bind _ = _
    rw [lookupGroup_map_update]
    obtain ⟨d, hd⟩ := Option.isSome_iff_exists.mp hp
    rw [hd]
    rfl
  · rw [if_neg hp]
    show (lookupGroup (c.groups ++ [(gid, ⟨none, some v, none⟩)]) gid).bind _ = _
    rw [lookupGroup_append_right gid _ c.groups (Option.not_isSome_iff_eq_none.mp hp)]
    rfl

theorem setGroupFlagInitiative_solo (c : Combat) (gid : String) (v : ℚ)
    (hsolo : ∀ g ∈ c.groups, g.1 = gid ∨ g.2.initiative = none) :
    ∀ g ∈ (setGroupFlagInitiative c gid v).groups, g.1 = gid ∨ g.2.initiative = none := by
  intro g hg
  unfold setGroupFlagInitiative at hg
  by_cases hp : (lookupGroup c.groups gid).isSome
  · rw [if_pos hp] at hg
    have hg2 : g ∈ c.groups.map (fun g =>
        if g.1 = gid then (g.1, { g.2 with initiative := some v }) else g) := hg
    rw [List.mem_map] at hg2
    obtain ⟨g', hg', hfg⟩ := hg2
    by_cases hid : g'.1 = gid
    · rw [if_pos hid] at hfg
      exact Or.inl (by rw [← hfg]; exact hid)
    · rw [if_neg hid] at hfg
      exact hfg ▸ hsolo g' hg'
  · rw [if_neg hp] at hg
    have hg2 : g ∈ c.groups ++ [(gid, (⟨none, some v, none⟩ : GroupData))] := hg
    rcases List.mem_append.mp hg2 with hin | hnew
    · exact hsolo g hin
    · rw [List.mem_singleton] at hnew
      exact Or.inl (by rw [hnew])

theorem applyUpdate_id (cb : Combatant) (us : List MemberUpdate) :
    (applyUpdate cb us).id = cb.id := by
  unfold applyUpdate
  cases us.find? (fun u => u.id = cb.id) <;> rfl

theorem applyUpdate_groupId (cb : Combatant) (us : List MemberUpdate) :
    (applyUpdate cb us).groupId = cb.groupId := by
  unfold applyUpdate
  cases us.find? (fun u => u.id = cb.id) <;> rfl

theorem membersOf_map_preserve (c : Combat) (gid : String) (f : Combatant → Combatant)
    (hf : ∀ cb, (f cb).groupId = cb.groupId) :
    membersOf { c with combatants := c.combatants.map f } gid
      = (membersOf c gid).map f := by
  show (c.combatants.map f).filter _ = _
  rw [List.filter_map, membersOf]
  refine congrArg _ (List.filter_congr (fun cb _ => ?_))
  show decide ((f cb).groupId = some gid) = decide (cb.groupId = some gid)
  rw [hf]

theorem buildUpdates_map_id (b a off : ℚ) (n : ℕ) :
    ∀ (l : List Entry) (start : ℕ),
      (buildUpdates b a off n start l).map (fun u => u.id) = l.map (fun e => e.cid) := by
  intro l
  induction l with
  | nil => intro start; rfl
  | cons e rest ih =>
    intro start
    rw [buildUpdates, List.map_cons, List.map_cons, ih]

theorem find?_key_of_nodup :
    ∀ (us : List MemberUpdate), (us.map (fun u => u.id)).Nodup →
      ∀ u ∈ us, us.find? (fun x => x.id = u.id) = some u := by
  intro us
  induction us with
  | nil => intro _ u hu; exact absurd hu (by simp)
  | cons u1 rest ih =>
    intro hnd u hu
    rw [List.map_cons, List.nodup_cons] at hnd
    rcases List.mem_cons.mp hu with heq | hmem
    · subst heq
      exact List.find?_cons_of_pos _ (by simp)
    · have hne : u1.id ≠ u.id := by
        intro hc
        exact hnd.1 (hc ▸ List.mem_map_of_mem (fun x => x.id) hmem)
      rw [List.find?_cons_of_neg _ (by simp only [decide_eq_true_eq]; exact hne)]
      exact ih hnd.2 u hmem

theorem groupsWithInit_id_eq (c : Combat) (gid : String) (avg : ℚ)
    (hsolo : ∀ g ∈ c.groups, g.1 = gid ∨ g.2.initiative = none) :
    ∀ x ∈ groupsWithInit c gid avg, x.id = gid := by
  intro x hx
  unfold groupsWithInit at hx
  rw [(List.perm_insertionSort rankLE _).mem_iff, List.mem_filterMap] at hx
  obtain ⟨g, hg, hfg⟩ := hx
  dsimp only at hfg
  rcases hsolo g hg with hid | hini
  · cases hini2 : g.2.initiative with
    | some v =>
      rw [hini2] at hfg
      dsimp only at hfg
      rw [← Option.some_inj.mp hfg]
      exact hid
    | none =>
      rw [hini2, if_pos hid] at hfg
      dsimp only at hfg
      rw [← Option.some_inj.mp hfg]
      exact hid
  · by_cases hid : g.1 = gid
    · cases hini2 : g.2.initiative with
      | some v =>
        rw [hini2] at hfg
        dsimp only at hfg
        rw [← Option.some_inj.mp hfg]
        exact hid
      | none =>
        rw [hini2, if_pos hid] at hfg
        dsimp only at hfg
        rw [← Option.some_inj.mp hfg]
        exact hid
    · rw [hini, if_neg hid] at hfg
      exact absurd hfg (by simp)

/-- When every other persisted group lacks an aggregate, the finalized group is alone in
the ranking, gets rank 0, hence offset 0. -/
theorem groupOffsetOf_solo (c : Combat) (gid : String) (avg K : ℚ)
    (hsolo : ∀ g ∈ c.groups, g.1 = gid ∨ g.2.initiative = none) :
    groupOffsetOf c gid avg K = 0 := by
  unfold groupOffsetOf
  cases hlist : groupsWithInit c gid avg with
  | nil => simp [List.findIdx?]
  | cons x xs =>
    have hx : x.id = gid := groupsWithInit_id_eq c gid avg hsolo x
      (by rw [hlist]; exact List.mem_cons_self x xs)
    have hfind : (x :: xs).findIdx? (fun e => e.id = gid) = some 0 := by
      rw [List.findIdx?_cons]
      simp [hx]
    rw [hfind]
    simp [rankOffset]

/-- Closed form for the sum of the encoded initiatives at group offset `0` and an
integer aggregate: the stagger terms survive `toFixed(2)` unchanged. -/
theorem buildUpdates_sum (b A : ℚ) (hA : ∃ z : ℤ, A = (z : ℚ)) (n : ℕ) :
    ∀ (l : List Entry) (start : ℕ),
      ((buildUpdates b A 0 n start l).map (fun u => u.initiative)).sum
        = l.length * A
          + ((l.length : ℚ) * ((n : ℚ) - (start : ℚ))
              - (l.length : ℚ) * ((l.length : ℚ) - 1) / 2) / 100 := by
  obtain ⟨z, hz⟩ := hA
  intro l
  induction l with
  | nil => intro start; simp [buildUpdates]
  | cons e rest ih =>
    intro start
    have hterm : toFixed2 (A + 0 + ((n : ℚ) - (start : ℚ)) * STAGGER_INCREMENT)
        = A + ((n : ℚ) - (start : ℚ)) / 100 := by
      rw [toFixed2_eq_self ⟨100 * z + (n : ℤ) - (start : ℤ), by
        rw [hz]; unfold STAGGER_INCREMENT; push_cast; ring⟩]
      unfold STAGGER_INCREMENT
      ring
    rw [buildUpdates, List.map_cons, List.sum_cons, ih (start + 1), hterm]
    simp only [List.length_cons]
    push_cast
    ring

/-- When the guards pass, `finalizeGroupInitiative` computes exactly the
`_applyGroupOrder` batch for the shaped member list. -/
theorem finalizeCompute_of_guards (c : Combat) (gid : String) (K : ℚ)
    (hmem : membersOf c gid ≠ [])
    (hall : ∀ cb ∈ membersOf c gid, cb.initiative.isSome) :
    finalizeCompute c gid K = applyGroupOrderUpdates c gid (shapedMembers c gid) K := by
  unfold finalizeCompute
  dsimp only
  rw [if_neg (fun h0 => hmem (List.length_eq_zero.mp h0)),
      if_pos (List.all_eq_true.mpr (fun cb hcb => hall cb hcb))]

/-- The persisted state after a successful finalize: the member updates applied to the
combatants, then the aggregate written to the group flag. -/
theorem finalizeRun_state (c : Combat) (gid : String) (K : ℚ)
    (hmem : membersOf c gid ≠ [])
    (hall : ∀ cb ∈ membersOf c gid, cb.initiative.isSome)
    {us : List MemberUpdate} {avg : ℚ}
    (hcomp : applyGroupOrderUpdates c gid (shapedMembers c gid) K = some (us, avg)) :
    (finalizeRun c gid K true).1
      = setGroupFlagInitiative
          { c with combatants := c.combatants.map (fun cb => applyUpdate cb us) }
          gid avg := by
  unfold finalizeRun
  dsimp only
  rw [if_neg (fun h0 => hmem (List.length_eq_zero.mp h0)),
      if_pos (List.all_eq_true.mpr (fun cb hcb => hall cb hcb))]
  unfold applyGroupOrderRun
  rw [hcomp]
  rfl

/-- The initiative value the update batch assigns to a combatant id (`0` when the batch
has no entry for it; the relevant call sites always find one). -/
def updVal (us : List MemberUpdate) (id : String) : ℚ :=
  ((us.find? (fun x => x.id = id)).map (fun u => u.initiative)).getD 0

theorem updVal_of_mem (us : List MemberUpdate) (hnd : (us.map (fun u => u.id)).Nodup)
    (u : MemberUpdate) (hu : u ∈ us) : updVal us u.id = u.initiative := by
  unfold updVal
  rw [find?_key_of_nodup us hnd u hu]
  rfl

/-- Strict descending order on individual initiative — the order the encoded values
induce after a finalize. -/
def entryGT (a b : Entry) : Prop := b.init < a.init

instance : IsAntisymm Entry entryGT :=
  ⟨fun _ _ h1 h2 => absurd h1 (lt_asymm h2)⟩

/-- For an integer aggregate at group offset `0`, the encoded member value survives
`toFixed(2)` exactly. -/
theorem encoded_exact (A : ℚ) (hA : ∃ z : ℤ, A = (z : ℚ)) (n i : ℕ) :
    toFixed2 (A + 0 + ((n : ℚ) - (i : ℚ)) * STAGGER_INCREMENT)
      = A + ((n : ℚ) - (i : ℚ)) / 100 := by
  obtain ⟨z, hz⟩ := hA
  rw [toFixed2_eq_self ⟨100 * z + (n : ℤ) - (i : ℤ), by
    rw [hz]; unfold STAGGER_INCREMENT; push_cast; ring⟩]
  unfold STAGGER_INCREMENT
  ring

/-- A list with strictly decreasing initiatives is the unique `entryLE`-sorted
arrangement of its elements: the stable sort of any permutation of it returns it. -/
theorem sortMembers_eq_strict (l T : List Entry) (hperm : l.Perm T)
    (hT : List.Pairwise entryGT T) : sortMembers l = T := by
  have hS : (sortMembers l).Perm T := (List.perm_insertionSort entryLE l).trans hperm
  have hndT : (T.map (fun e => e.init)).Nodup :=
    List.pairwise_map.mpr (hT.imp (fun h => ne_of_gt h))
  have hndS : ((sortMembers l).map (fun e => e.init)).Nodup :=
    ((hS.map (fun e => e.init)).nodup_iff).mpr hndT
  have hne : List.Pairwise (fun a b : Entry => a.init ≠ b.init) (sortMembers l) :=
    List.pairwise_map.mp hndS
  have hle : List.Pairwise entryLE (sortMembers l) := List.sorted_insertionSort entryLE l
  have hstrict : List.Pairwise entryGT (sortMembers l) :=
    (hle.and hne).imp (fun h => lt_of_le_of_ne (qLex_key_le h.1) (Ne.symm h.2))
  exact List.eq_of_perm_of_sorted hS hstrict hT

/-- A successful `finalizeCompute` certifies that both guards passed. -/
theorem finalizeCompute_guards (c : Combat) (gid : String) (K : ℚ)
    {us : List MemberUpdate} {avg : ℚ} (h : finalizeCompute c gid K = some (us, avg)) :
    membersOf c gid ≠ [] ∧ ∀ cb ∈ membersOf c gid, cb.initiative.isSome := by
  unfold finalizeCompute at h
  dsimp only at h
  by_cases h0 : (membersOf c gid).length = 0
  · rw [if_pos h0] at h
    exact absurd h (by simp)
  · rw [if_neg h0] at h
    by_cases h1 : (membersOf c gid).all (fun cb => cb.initiative.isSome)
    · rw [if_pos h1] at h
      exact ⟨fun hc => h0 (by rw [hc]; rfl), fun cb hcb => List.all_eq_true.mp h1 cb hcb⟩
    · rw [if_neg h1] at h
      exact absurd h (by simp)

/-- Distinct combatant ids give distinct ids along the sorted member list. -/
theorem sorted_cids_nodup (c : Combat) (gid : String)
    (hids : (c.combatants.map (fun cb => cb.id)).Nodup) :
    ((sortMembers (shapedMembers c gid)).map (fun e => e.cid)).Nodup := by
  have h1 : (shapedMembers c gid).map (fun e => e.cid)
      = (membersOf c gid).map (fun cb => cb.id) := by
    unfold shapedMembers
    rw [List.map_map]
    rfl
  have hsub : List.Sublist (membersOf c gid) c.combatants := List.filter_sublist c.combatants
  have h2 : ((membersOf c gid).map (fun cb => cb.id)).Nodup :=
    List.Nodup.sublist (hsub.map (fun cb => cb.id)) hids
  have hperm : ((sortMembers (shapedMembers c gid)).map (fun e => e.cid)).Perm
      ((shapedMembers c gid).map (fun e => e.cid)) :=
    (List.perm_insertionSort entryLE (shapedMembers c gid)).map (fun e => e.cid)
  rw [h1] at hperm
  exact hperm.nodup_iff.mpr h2

/-- Re-averaging the encoded member values of a rank-0 group with at most 98 members
rounds back to the original integer aggregate. -/
theorem second_finalize_avg (z : ℤ) (N : ℕ) (h1 : 1 ≤ N) (h98 : N ≤ 98) :
    jsRound (((N : ℚ) * (z : ℚ)
        + ((N : ℚ) * ((N : ℚ) - ((0 : ℕ) : ℚ)) - (N : ℚ) * ((N : ℚ) - 1) / 2) / 100)
      / (N : ℚ)) = (z : ℚ) := by
  have hNq : (0 : ℚ) < (N : ℚ) := by exact_mod_cast h1
  have hne : (N : ℚ) ≠ 0 := ne_of_gt hNq
  have harith : ((N : ℚ) * (z : ℚ)
        + ((N : ℚ) * ((N : ℚ) - ((0 : ℕ) : ℚ)) - (N : ℚ) * ((N : ℚ) - 1) / 2) / 100)
      / (N : ℚ) = (z : ℚ) + ((N : ℚ) + 1) / 200 := by
    field_simp
    ring
  rw [harith]
  have h98q : (N : ℚ) ≤ 98 := by exact_mod_cast h98
  exact jsRound_int_add_small z _ (by positivity) (by linarith)

/-- **C10, amended.**  Finalize is idempotent on an unchanged member set *under the
conditions the counterexample shows necessary*: the combatant ids are distinct, the
group ranks 0 in the cross-group ranking (here: no other stored group carries an
aggregate), and the group has at most 98 members.  Then a second finalize recomputes
the same aggregate, and its update batch lists the member ids in the same order as the
first.  (With a positive group rank the persisted offset inflates the re-averaged
aggregate — see the counterexample.) -/
theorem C10_theorem (K : ℚ) (c : Combat) (gid : String)
    (hids : (c.combatants.map (fun cb => cb.id)).Nodup)
    (hsolo : ∀ g ∈ c.groups, g.1 = gid ∨ g.2.initiative = none)
    (hn : (membersOf c gid).length ≤ 98)
    (us0 : List MemberUpdate) (avg0 : ℚ)
    (h : finalizeCompute c gid K = some (us0, avg0)) :
    ∃ us1 : List MemberUpdate,
      finalizeCompute (finalizeRun c gid K true).1 gid K = some (us1, avg0) ∧
      us1.map (fun u => u.id) = us0.map (fun u => u.id) := by
  obtain ⟨hmem, hall⟩ := finalizeCompute_guards c gid K h
  have hcomp0 : applyGroupOrderUpdates c gid (shapedMembers c gid) K = some (us0, avg0) := by
    rw [← finalizeCompute_of_guards c gid K hmem hall]
    exact h
  obtain ⟨hus0, havg0⟩ := applyGroupOrderUpdates_eq c gid (shapedMembers c gid) K hcomp0
  rw [groupOffsetOf_solo c gid avg0 K hsolo] at hus0
  obtain ⟨z0, hz0⟩ := calculateAverageInitiative_int havg0.symm
  have hlen_us0 : us0.length = (sortMembers (shapedMembers c gid)).length := by
    rw [hus0, buildUpdates_length]
  have hids_us0 : us0.map (fun u => u.id)
      = (sortMembers (shapedMembers c gid)).map (fun e => e.cid) := by
    rw [hus0, buildUpdates_map_id]
  have hnd_us0 : (us0.map (fun u => u.id)).Nodup := by
    rw [hids_us0]
    exact sorted_cids_nodup c gid hids
  have hrec : ∀ i : ℕ, ∀ hi : i < (sortMembers (shapedMembers c gid)).length,
      ∀ hi2 : i < us0.length,
      us0.get ⟨i, hi2⟩
        = ⟨((sortMembers (shapedMembers c gid)).get ⟨i, hi⟩).cid,
            baseSortOf c + (i : ℚ) * SORT_INCREMENT,
            avg0 + (((sortMembers (shapedMembers c gid)).length : ℚ) - (i : ℚ)) / 100⟩ := by
    intro i hi hi2
    have hgu : us0[i]?
        = some (⟨((sortMembers (shapedMembers c gid)).get ⟨i, hi⟩).cid,
            baseSortOf c + (i : ℚ) * SORT_INCREMENT,
            avg0 + (((sortMembers (shapedMembers c gid)).length : ℚ) - (i : ℚ)) / 100⟩
            : MemberUpdate) := by
      conv_lhs => rw [hus0]
      rw [buildUpdates_getElem?, List.getElem?_eq_getElem hi, Option.map_some']
      simp only [Nat.zero_add]
      rw [encoded_exact avg0 ⟨z0, hz0⟩]
      rfl
    have h2 : us0[i]? = some (us0.get ⟨i, hi2⟩) := by
      rw [List.getElem?_eq_getElem hi2]
      rfl
    exact Option.some_inj.mp (h2.symm.trans hgu)
  have hval : ∀ i : ℕ, ∀ hi : i < (sortMembers (shapedMembers c gid)).length,
      updVal us0 ((sortMembers (shapedMembers c gid)).get ⟨i, hi⟩).cid
        = avg0 + (((sortMembers (shapedMembers c gid)).length : ℚ) - (i : ℚ)) / 100 := by
    intro i hi
    have hi2 : i < us0.length := by rw [hlen_us0]; exact hi
    have h3 := updVal_of_mem us0 hnd_us0 (us0.get ⟨i, hi2⟩) (List.get_mem us0 i hi2)
    rw [hrec i hi hi2] at h3
    exact h3
  have hmemid : ∀ m ∈ membersOf c gid, m.id ∈ us0.map (fun u => u.id) := by
    intro m hm
    rw [hids_us0]
    refine ((List.perm_insertionSort entryLE (shapedMembers c gid)).map
        (fun e => e.cid)).mem_iff.mpr ?_
    have h2 : (shapedMembers c gid).map (fun e => e.cid)
        = (membersOf c gid).map (fun x => x.id) := by
      unfold shapedMembers
      rw [List.map_map]
      rfl
    rw [h2]
    exact List.mem_map_of_mem (fun x => x.id) hm
  have hmembers1 : membersOf (finalizeRun c gid K true).1 gid
      = (membersOf c gid).map (fun cb => applyUpdate cb us0) := by
    rw [finalizeRun_state c gid K hmem hall hcomp0]
    have h2 : membersOf (setGroupFlagInitiative
        { c with combatants := c.combatants.map (fun cb => applyUpdate cb us0) } gid avg0) gid
        = membersOf
          { c with combatants := c.combatants.map (fun cb => applyUpdate cb us0) } gid := by
      unfold membersOf
      rw [setGroupFlagInitiative_combatants]
    rw [h2, membersOf_map_preserve c gid _ (fun cb => applyUpdate_groupId cb us0)]
  have hmem1 : membersOf (finalizeRun c gid K true).1 gid ≠ [] := by
    rw [hmembers1]
    intro hc
    exact hmem (List.map_eq_nil.mp hc)
  have hall1 : ∀ cb ∈ membersOf (finalizeRun c gid K true).1 gid, cb.initiative.isSome := by
    intro cb hcb
    rw [hmembers1] at hcb
    obtain ⟨m, hm, hmeq⟩ := List.mem_map.mp hcb
    obtain ⟨u, hu, huid⟩ := List.mem_map.mp (hmemid m hm)
    have hfind : us0.find? (fun x => x.id = m.id) = some u := by
      rw [← huid]
      exact find?_key_of_nodup us0 hnd_us0 u hu
    rw [← hmeq]
    unfold applyUpdate
    rw [hfind]
    rfl
  have hshaped1 : shapedMembers (finalizeRun c gid K true).1 gid
      = (shapedMembers c gid).map
          (fun e => (⟨e.cid, updVal us0 e.cid, e.dex⟩ : Entry)) := by
    unfold shapedMembers
    rw [hmembers1, List.map_map, List.map_map]
    apply List.map_congr_left
    intro m hm
    obtain ⟨u, hu, huid⟩ := List.mem_map.mp (hmemid m hm)
    have hfind : us0.find? (fun x => x.id = m.id) = some u := by
      rw [← huid]
      exact find?_key_of_nodup us0 hnd_us0 u hu
    show (⟨(applyUpdate m us0).id, (applyUpdate m us0).initiative.getD 0,
        (applyUpdate m us0).dexValue.getD 10⟩ : Entry)
      = ⟨m.id, updVal us0 m.id, m.dexValue.getD 10⟩
    unfold applyUpdate updVal
    rw [hfind]
    rfl
  have hvalF : ∀ i : Fin (sortMembers (shapedMembers c gid)).length,
      updVal us0 ((sortMembers (shapedMembers c gid)).get i).cid
        = avg0 + (((sortMembers (shapedMembers c gid)).length : ℚ) - (i.val : ℚ)) / 100 :=
    fun i => hval i.val i.isLt
  have hTstrict : List.Pairwise entryGT
      ((sortMembers (shapedMembers c gid)).map
        (fun e => (⟨e.cid, updVal us0 e.cid, e.dex⟩ : Entry))) := by
    rw [List.pairwise_map, List.pairwise_iff_get]
    intro i j hij
    show updVal us0 ((sortMembers (shapedMembers c gid)).get j).cid
        < updVal us0 ((sortMembers (shapedMembers c gid)).get i).cid
    rw [hvalF i, hvalF j]
    have hij2 : (i.val : ℚ) < (j.val : ℚ) := by exact_mod_cast hij
    linarith
  have hS1 : sortMembers (shapedMembers (finalizeRun c gid K true).1 gid)
      = (sortMembers (shapedMembers c gid)).map
          (fun e => (⟨e.cid, updVal us0 e.cid, e.dex⟩ : Entry)) := by
    rw [hshaped1]
    exact sortMembers_eq_strict _ _
      (((List.perm_insertionSort entryLE (shapedMembers c gid)).map
        (fun e => (⟨e.cid, updVal us0 e.cid, e.dex⟩ : Entry))).symm)
      hTstrict
  have hcompute1 : finalizeCompute (finalizeRun c gid K true).1 gid K
      = applyGroupOrderUpdates (finalizeRun c gid K true).1 gid
          (shapedMembers (finalizeRun c gid K true).1 gid) K :=
    finalizeCompute_of_guards _ gid K hmem1 hall1
  have hShne : shapedMembers (finalizeRun c gid K true).1 gid ≠ [] := by
    rw [hshaped1]
    intro hc
    have h2 : shapedMembers c gid = [] := List.map_eq_nil.mp hc
    unfold shapedMembers at h2
    exact hmem (List.map_eq_nil.mp h2)
  obtain ⟨us1, avg1, hcomp1⟩ := applyGroupOrderUpdates_eq_some (finalizeRun c gid K true).1
      gid (shapedMembers (finalizeRun c gid K true).1 gid) K hShne
  obtain ⟨hus1, havg1⟩ := applyGroupOrderUpdates_eq _ gid _ K hcomp1
  have hsum : (((sortMembers (shapedMembers c gid)).map
        (fun e => (⟨e.cid, updVal us0 e.cid, e.dex⟩ : Entry))).map
        (fun e => e.init)).sum
      = (us0.map (fun u => u.initiative)).sum := by
    have h5 : ((sortMembers (shapedMembers c gid)).map
          (fun e => (⟨e.cid, updVal us0 e.cid, e.dex⟩ : Entry))).map (fun e => e.init)
        = ((sortMembers (shapedMembers c gid)).map (fun e => e.cid)).map
            (fun s => updVal us0 s) := by
      rw [List.map_map, List.map_map]
      rfl
    rw [h5, ← hids_us0, List.map_map]
    exact congrArg List.sum
      (List.map_congr_left (fun u hu => updVal_of_mem us0 hnd_us0 u hu))
  have hN0 : ¬ (sortMembers (shapedMembers c gid)).length = 0 := by
    rw [sortMembers, List.length_insertionSort]
    intro hc
    have h2 : shapedMembers c gid = [] := List.length_eq_zero.mp hc
    unfold shapedMembers at h2
    exact hmem (List.map_eq_nil.mp h2)
  have hN1 : 1 ≤ (sortMembers (shapedMembers c gid)).length := Nat.pos_of_ne_zero hN0
  have hN98 : (sortMembers (shapedMembers c gid)).length ≤ 98 := by
    rw [sortMembers, List.length_insertionSort]
    unfold shapedMembers
    rw [List.length_map]
    exact hn
  have havg10 : avg1 = avg0 := by
    rw [hS1] at havg1
    unfold calculateAverageInitiative at havg1
    rw [hsum, List.length_map, List.length_map] at havg1
    rw [if_neg hN0, Option.some_inj] at havg1
    have hsv : (us0.map (fun u => u.initiative)).sum
        = ((sortMembers (shapedMembers c gid)).length : ℚ) * avg0
          + (((sortMembers (shapedMembers c gid)).length : ℚ)
              * (((sortMembers (shapedMembers c gid)).length : ℚ) - ((0 : ℕ) : ℚ))
            - ((sortMembers (shapedMembers c gid)).length : ℚ)
              * (((sortMembers (shapedMembers c gid)).length : ℚ) - 1) / 2) / 100 := by
      rw [hus0]
      exact buildUpdates_sum (baseSortOf c) avg0 ⟨z0, hz0⟩
        (sortMembers (shapedMembers c gid)).length (sortMembers (shapedMembers c gid)) 0
    rw [hsv, hz0] at havg1
    rw [second_finalize_avg z0 (sortMembers (shapedMembers c gid)).length hN1 hN98] at havg1
    rw [hz0]
    exact havg1
  have hids1 : us1.map (fun u => u.id) = us0.map (fun u => u.id) := by
    rw [hus1, buildUpdates_map_id, hS1, List.map_map]
    rw [hids_us0]
    rfl
  refine ⟨us1, ?_, hids1⟩
  rw [hcompute1, hcomp1, havg10]

def cexC10 : Combat :=
  ⟨[⟨"m", some "g", some 10, some 12, none, none, some 0⟩],
   [("h1", ⟨some "H1", some 20, none⟩),
    ("h2", ⟨some "H2", some 19, none⟩),
    ("h3", ⟨some "H3", some 18, none⟩),
    ("g", ⟨some "G", none, none⟩)], []⟩

def cexC10bVal : Combat :=
  ⟨[⟨"m", some "g", some (1061/100), some 12, none, none, some (-1000)⟩],
   [("h1", ⟨some "H1", some 20, none⟩),
    ("h2", ⟨some "H2", some 19, none⟩),
    ("h3", ⟨some "H3", some 18, none⟩),
    ("g", ⟨some "G", some 10, none⟩)], []⟩

set_option maxHeartbeats 1600000

theorem cexC10_eval1 :
    finalizeCompute cexC10 "g" (1/5)
      = some ([⟨"m", -1000, 1061/100⟩], 10) := by
  repeat
    first
    | rfl
    | norm_num [cexC10, finalizeCompute, membersOf, shapedMembers,
        applyGroupOrderUpdates, sortMembers, List.insertionSort, List.orderedInsert,
        entryLE, rankLE, qLex, calculateAverageInitiative, jsRound, groupOffsetOf,
        groupsWithInit, rankOffset, baseSortOf, minSorts, buildUpdates, toFixed2,
        STAGGER_INCREMENT, SORT_BASE_OFFSET, SORT_INCREMENT, lookupGroup,
        List.findIdx?, List.filterMap]
    | simp [cexC10, finalizeCompute, membersOf, shapedMembers,
        applyGroupOrderUpdates, sortMembers, List.insertionSort, List.orderedInsert,
        entryLE, rankLE, qLex, calculateAverageInitiative, jsRound, groupOffsetOf,
        groupsWithInit, rankOffset, baseSortOf, minSorts, buildUpdates, toFixed2,
        STAGGER_INCREMENT, SORT_BASE_OFFSET, SORT_INCREMENT, lookupGroup,
        List.findIdx?, List.filterMap]

theorem cexC10b_eval : (finalizeRun cexC10 "g" (1/5) true).1 = cexC10bVal := by
  repeat
    first
    | rfl
    | norm_num [cexC10, cexC10bVal, finalizeRun, finalizeCompute, membersOf,
        shapedMembers, applyGroupOrderRun, applyGroupOrderUpdates, sortMembers,
        List.insertionSort, List.orderedInsert, entryLE, rankLE, qLex,
        calculateAverageInitiative, jsRound, groupOffsetOf, groupsWithInit,
        rankOffset, baseSortOf, minSorts, buildUpdates, toFixed2,
        STAGGER_INCREMENT, SORT_BASE_OFFSET, SORT_INCREMENT, lookupGroup,
        setGroupFlagInitiative, applyUpdate, unsetSkipFlag,
        List.find?, List.findIdx?, List.filterMap]
    | simp [cexC10, cexC10bVal, finalizeRun, finalizeCompute, membersOf,
        shapedMembers, applyGroupOrderRun, applyGroupOrderUpdates, sortMembers,
        List.insertionSort, List.orderedInsert, entryLE, rankLE, qLex,
        calculateAverageInitiative, jsRound, groupOffsetOf, groupsWithInit,
        rankOffset, baseSortOf, minSorts, buildUpdates, toFixed2,
        STAGGER_INCREMENT, SORT_BASE_OFFSET, SORT_INCREMENT, lookupGroup,
        setGroupFlagInitiative, applyUpdate, unsetSkipFlag,
        List.find?, List.findIdx?, List.filterMap]
  simp only [String.reduceEq, reduceIte]
  norm_num

theorem cexC10_eval2 :
    finalizeCompute cexC10bVal "g" (1/5)
      = some ([⟨"m", -2000, 1161/100⟩], 11) := by
  repeat
    first
    | rfl
    | norm_num [cexC10bVal, finalizeCompute, membersOf, shapedMembers,
        applyGroupOrderUpdates, sortMembers, List.insertionSort, List.orderedInsert,
        entryLE, rankLE, qLex, calculateAverageInitiative, jsRound, groupOffsetOf,
        groupsWithInit, rankOffset, baseSortOf, minSorts, buildUpdates, toFixed2,
        STAGGER_INCREMENT, SORT_BASE_OFFSET, SORT_INCREMENT, lookupGroup,
        List.findIdx?, List.filterMap]
    | simp [cexC10bVal, finalizeCompute, membersOf, shapedMembers,
        applyGroupOrderUpdates, sortMembers, List.insertionSort, List.orderedInsert,
        entryLE, rankLE, qLex, calculateAverageInitiative, jsRound, groupOffsetOf,
        groupsWithInit, rankOffset, baseSortOf, minSorts, buildUpdates, toFixed2,
        STAGGER_INCREMENT, SORT_BASE_OFFSET, SORT_INCREMENT, lookupGroup,
        List.findIdx?, List.filterMap]

set_option maxHeartbeats 200000

/-- **C10, counterexample** (with the spec-modelled per-rank constant at `K = 1/5`;
any positive constant scaled to the rank gap gives the same drift).  A one-member
group `g` at initiative `10` behind three metadata-only groups at `20, 19, 18` ranks
3rd, so its member is encoded `10 + 3·(1/5) + 0.01 = 10.61`.  Re-running finalize on
this unchanged member set re-averages the encoded value: `Math.round(10.61) = 11 ≠ 10`
— the persisted aggregate is not idempotent. -/
theorem C10_counterexample :
    (finalizeCompute cexC10 "g" (1/5)).map (fun p => p.2) = some 10 ∧
    (finalizeCompute (finalizeRun cexC10 "g" (1/5) true).1 "g" (1/5)).map (fun p => p.2)
      = some 11 ∧
    (10 : ℚ) ≠ 11 := by
  refine ⟨?_, ?_, by norm_num⟩
  · rw [cexC10_eval1]
    rfl
  · rw [cexC10b_eval, cexC10_eval2]
    rfl

def cexC10w : Combat :=
  ⟨[⟨"n1", some "g", some 12, some 14, none, none, some 0⟩,
    ⟨"n2", some "g", some 10, some 8, none, none, some 0⟩],
   [("g", ⟨some "G", none, none⟩)], []⟩

def cexC10wUpdates : List MemberUpdate :=
  [⟨"n1", -1000, 1102/100⟩, ⟨"n2", -900, 1101/100⟩]

set_option maxHeartbeats 1600000

theorem cexC10w_eval :
    finalizeCompute cexC10w "g" (1/5) = some (cexC10wUpdates, 11) := by
  repeat
    first
    | rfl
    | norm_num [cexC10w, cexC10wUpdates, finalizeCompute, membersOf, shapedMembers,
        applyGroupOrderUpdates, sortMembers, List.insertionSort, List.orderedInsert,
        entryLE, rankLE, qLex, calculateAverageInitiative, jsRound, groupOffsetOf,
        groupsWithInit, rankOffset, baseSortOf, minSorts, buildUpdates, toFixed2,
        STAGGER_INCREMENT, SORT_BASE_OFFSET, SORT_INCREMENT, lookupGroup,
        List.findIdx?, List.filterMap]
    | simp [cexC10w, cexC10wUpdates, finalizeCompute, membersOf, shapedMembers,
        applyGroupOrderUpdates, sortMembers, List.insertionSort, List.orderedInsert,
        entryLE, rankLE, qLex, calculateAverageInitiative, jsRound, groupOffsetOf,
        groupsWithInit, rankOffset, baseSortOf, minSorts, buildUpdates, toFixed2,
        STAGGER_INCREMENT, SORT_BASE_OFFSET, SORT_INCREMENT, lookupGroup,
        List.findIdx?, List.filterMap]

set_option maxHeartbeats 200000

/-- **C10, witness** for the amended theorem: a two-member solo group at `K = 1/5`
whose second finalize reproduces aggregate `11` and the member order `n1, n2`. -/
theorem C10_witness :
    (cexC10w.combatants.map (fun cb => cb.id)).Nodup ∧
    (∀ g ∈ cexC10w.groups, g.1 = "g" ∨ g.2.initiative = none) ∧
    (membersOf cexC10w "g").length ≤ 98 ∧
    ∃ us1 : List MemberUpdate,
      finalizeCompute (finalizeRun cexC10w "g" (1/5) true).1 "g" (1/5) = some (us1, 11) ∧
      us1.map (fun u => u.id) = cexC10wUpdates.map (fun u => u.id) :=
  ⟨by decide, by decide, by decide,
   C10_theorem (1/5) cexC10w "g" (by decide) (by decide) (by decide) cexC10wUpdates 11
     cexC10w_eval⟩
